import Mathlib

/-!
Verification development for the kintales-server death-confirmation workflow.

Shallow embedding of:
- `src/utils/commemorations.js` (generateCommemorationDates, addMonthsSafe, toISODate)
- `src/services/death.service.js` (reportDeath, confirmDeath, finalizeDeathRecord)
- `src/utils/treeAccess.js` (verifyTreeAccess)
- `src/jobs/autoConfirmDeath.js` (autoConfirmDeathRecords)
- `src/jobs/generateEvents.js` (generateEventsNotifications dedup core)
- `src/services/events.service.js` (getTreeEvents and its compute helpers)

Database tables are embedded as lists of rows inside a `DBState`; asynchronous
database calls become pure state-passing functions; thrown service errors
become `Except` values; the drizzle transaction wrapper becomes an explicit
run-body-or-rollback combinator.  Identifiers (uuids in the source) are
modelled as `Nat`.
-/

set_option maxRecDepth 8192

namespace Kintales

/-! ## Calendar arithmetic (src/utils/commemorations.js)

JavaScript `Date` normalizes out-of-range day values by carrying them into the
following months (Gregorian calendar, leap years as in `Date`).  `normDays`
reproduces that normalization for day values that exceed the month length.
-/

def isLeapYear (y : Nat) : Bool :=
  (y % 4 == 0 && y % 100 != 0) || (y % 400 == 0)

def daysInMonth (y m : Nat) : Nat :=
  if m = 2 then (if isLeapYear y then 29 else 28)
  else if m = 4 ∨ m = 6 ∨ m = 9 ∨ m = 11 then 30
  else 31

theorem daysInMonth_pos (y m : Nat) : 0 < daysInMonth y m := by
  unfold daysInMonth
  split_ifs <;> omega

theorem le_daysInMonth (y m : Nat) : 28 ≤ daysInMonth y m := by
  unfold daysInMonth
  split_ifs <;> omega

/-- A concrete calendar date (year, 1-based month, 1-based day). -/
structure JDate where
  year : Nat
  month : Nat
  day : Nat
deriving DecidableEq, Repr

/-- Normalize a day count that may overflow the month, carrying into later
months exactly as the JavaScript `Date` object does for
`setDate(getDate() + n)`.  Structural recursion on a fuel argument: every
carry step strictly decreases the day count (months have at least 28 days),
so `d` units of fuel always suffice. -/
def normDaysAux : Nat → Nat → Nat → Nat → JDate
  | 0, y, m, d => ⟨y, m, d⟩
  | fuel + 1, y, m, d =>
    if daysInMonth y m < d then
      if m = 12 then normDaysAux fuel (y + 1) 1 (d - daysInMonth y m)
      else normDaysAux fuel y (m + 1) (d - daysInMonth y m)
    else ⟨y, m, d⟩

def normDays (y m d : Nat) : JDate := normDaysAux d y m d

/-- `fortyDays.setDate(fortyDays.getDate() + n)` -/
def addDays (dt : JDate) (n : Nat) : JDate :=
  normDays dt.year dt.month (dt.day + n)

/-- `addMonthsSafe` from src/utils/commemorations.js.  The source sets the
month with JavaScript `setMonth` (which keeps the day-of-month and lets `Date`
normalize an overflowing day into the next month) and then, when
`result.getDate() !== dayOfMonth`, calls `setDate(0)` to land on the last day
of the intended month.  Since a day-of-month is at most 31 and every month has
at least 28 days, the overflow never skips past one month, so the net effect
embedded here is: keep the day when it exists in the target month, otherwise
cap it to that month's last day. -/
def addMonthsSafe (dt : JDate) (months : Nat) : JDate :=
  let total := (dt.month - 1) + months
  let y := dt.year + total / 12
  let m := total % 12 + 1
  if dt.day ≤ daysInMonth y m then ⟨y, m, dt.day⟩
  else ⟨y, m, daysInMonth y m⟩

/-- `String(n).padStart(2, '0')` -/
def pad2 (n : Nat) : String :=
  if n < 10 then "0" ++ toString n else toString n

/-- `toISODate` from src/utils/commemorations.js: `YYYY-MM-DD`. -/
def toISODate (dt : JDate) : String :=
  toString dt.year ++ "-" ++ pad2 dt.month ++ "-" ++ pad2 dt.day

/-- One `{ type, commDate }` entry produced by `generateCommemorationDates`. -/
structure CommEntry where
  type : String
  commDate : String
deriving DecidableEq, Repr

/-- `generateCommemorationDates` from src/utils/commemorations.js. -/
def generateCommemorationDates (deathYear : Nat) (deathMonth deathDay : Option Nat) :
    List CommEntry :=
  match deathMonth, deathDay with
  | some m, some d =>
    let deathDate : JDate := ⟨deathYear, m, d⟩
    let fortyDays := addDays deathDate 40
    let sixMonths := addMonthsSafe deathDate 6
    let oneYear := addMonthsSafe deathDate 12
    [ ⟨"DEATH_40_DAYS", toISODate fortyDays⟩,
      ⟨"DEATH_6_MONTHS", toISODate sixMonths⟩,
      ⟨"DEATH_1_YEAR", toISODate oneYear⟩,
      ⟨"DEATH_ANNIVERSARY", toISODate oneYear⟩ ]
  | _, _ => []

/-! ## Data model (src/db/schema.js)

Rows of the tables touched by the death workflow.  Uuids become `Nat`,
timestamps become `Nat` milliseconds, `date` columns become ISO strings. -/

inductive DRStatus
  | PENDING | CONFIRMED | DISPUTED | CANCELLED
deriving DecidableEq, Repr

inductive RelStatus
  | ALIVE | DECEASED | MISSING | UNKNOWN
deriving DecidableEq, Repr

inductive Role
  | viewer | editor | owner
deriving DecidableEq, Repr

/-- `ROLE_HIERARCHY = { viewer: 0, editor: 1, owner: 2 }` (src/utils/treeAccess.js) -/
def roleLevel : Role → Nat
  | .viewer => 0
  | .editor => 1
  | .owner => 2

/-- A `death_records` row.  The `deathTime` and `createdAt` columns are
omitted: no modeled operation reads them. -/
structure DeathRecord where
  id : Nat
  relativeId : Nat
  reportedBy : Nat
  deathYear : Nat
  deathMonth : Option Nat
  deathDay : Option Nat
  causeOfDeath : Option String
  status : DRStatus
  confirmationsNeeded : Nat
  autoConfirmAt : Option Nat
  confirmedAt : Option Nat
deriving DecidableEq, Repr

structure Relative where
  id : Nat
  treeId : Nat
  fullName : String
  status : RelStatus
  birthYear : Option Nat
  birthMonth : Option Nat
  birthDay : Option Nat
  deathYear : Option Nat
  deathMonth : Option Nat
  deathDay : Option Nat
deriving DecidableEq, Repr

structure DeathConfirmation where
  deathRecordId : Nat
  userId : Nat
  confirmed : Bool
deriving DecidableEq, Repr

structure CommRow where
  relativeId : Nat
  type : String
  commDate : String
deriving DecidableEq, Repr

structure FamilyTree where
  id : Nat
deriving DecidableEq, Repr

structure TreeMember where
  treeId : Nat
  userId : Nat
  role : Role
deriving DecidableEq, Repr

/-- The relational store, one list per table. -/
structure DBState where
  trees : List FamilyTree
  treeMembers : List TreeMember
  relatives : List Relative
  deathRecords : List DeathRecord
  deathConfirmations : List DeathConfirmation
  commemorations : List CommRow
deriving DecidableEq, Repr

/-! ## Errors (src/utils/errors.js)

The service layer throws `AppError`s built by `notFound`, `badRequest`,
`forbidden`, `conflict`.  A raw database failure inside the finalize
transaction (step 2 or step 3) is not an `AppError`; it is embedded as
`dbError`. -/

inductive TxError
  | relativeUpdateFailed | commInsertFailed
deriving DecidableEq, Repr

inductive SvcError
  | notFound (resource : String)
  | badRequest (msg : String)
  | forbidden (msg : String)
  | conflict (msg : String)
  | dbError (e : TxError)
deriving DecidableEq, Repr

def SvcError.isConflict : SvcError → Bool
  | .conflict _ => true
  | _ => false

def SvcError.isForbidden : SvcError → Bool
  | .forbidden _ => true
  | _ => false

def SvcError.isBadRequest : SvcError → Bool
  | .badRequest _ => true
  | _ => false

/-! ## Tree access (src/utils/treeAccess.js) -/

/-- `verifyTreeAccess(treeId, userId, minRole)`: select the tree left-joined
with the caller's membership row; 404 when the tree is absent, 403 when the
caller is not a member or below `minRole`. -/
def verifyTreeAccess (s : DBState) (treeId userId : Nat) (minRole : Role) :
    Except SvcError Role :=
  match s.trees.find? (fun t => decide (t.id = treeId)) with
  | none => .error (.notFound "Tree")
  | some _ =>
    match s.treeMembers.find? (fun m => decide (m.treeId = treeId ∧ m.userId = userId)) with
    | none => .error (.forbidden "You do not have access to this tree")
    | some m =>
      if roleLevel m.role < roleLevel minRole then
        .error (.forbidden "You do not have sufficient permissions for this action")
      else .ok m.role

/-! ## Death service (src/services/death.service.js) -/

/-- `sanitizeDeathRecord(record, { showCause })` (src/utils/sanitize.js):
projects the row, keeping `causeOfDeath` only when `showCause`; the omitted
key is modelled as `none`. -/
def sanitizeDeathRecord (record : DeathRecord) (showCause : Bool) : DeathRecord :=
  { record with causeOfDeath := if showCause then record.causeOfDeath else none }

/-- Validated body of POST /death (fields read by `reportDeath`). -/
structure ReportData where
  relativeId : Nat
  deathYear : Nat
  deathMonth : Option Nat
  deathDay : Option Nat
  causeOfDeath : Option String
deriving DecidableEq, Repr

/-- `count(distinct userId)` over tree members other than the reporter. -/
def countOtherMembers (s : DBState) (treeId userId : Nat) : Nat :=
  (((s.treeMembers.filter (fun m => decide (m.treeId = treeId ∧ m.userId ≠ userId))).map
    (fun m => m.userId)).dedup).length

/-- `reportDeath(data, userId)`.  `now` is the clock reading, `newId` is the
id the insert's uuid default generates.  On success the new state and the
sanitized created row are returned; a thrown `AppError` leaves the store
untouched (every throw happens before the single insert). -/
def reportDeath (s : DBState) (data : ReportData) (userId now newId : Nat) :
    Except SvcError (DBState × DeathRecord) :=
  -- 1. Lookup relative and verify tree access
  match s.relatives.find? (fun r => decide (r.id = data.relativeId)) with
  | none => .error (.notFound "Relative")
  | some relative =>
    match verifyTreeAccess s relative.treeId userId .editor with
    | .error e => .error e
    | .ok _ =>
      -- 2. Prevent double report — already DECEASED
      if relative.status = .DECEASED then
        .error (.badRequest "This relative is already marked as deceased")
      -- 3. Prevent duplicate PENDING record
      else if (s.deathRecords.find? (fun dr =>
          decide (dr.relativeId = data.relativeId ∧ dr.status = .PENDING))).isSome then
        .error (.conflict "A pending death record already exists for this relative")
      else
        -- 4. Count other tree members (excluding reporter)
        let otherMembers := countOtherMembers s relative.treeId userId
        let quorum : Nat × Option Nat :=
          if otherMembers ≥ 2 then (2, none)
          else if otherMembers = 1 then (1, none)
          else (0, some (now + 48 * 60 * 60 * 1000))
        -- 5. Insert death record (status defaults to PENDING in the schema)
        let created : DeathRecord :=
          { id := newId
            relativeId := data.relativeId
            reportedBy := userId
            deathYear := data.deathYear
            deathMonth := data.deathMonth
            deathDay := data.deathDay
            causeOfDeath := data.causeOfDeath
            status := .PENDING
            confirmationsNeeded := quorum.1
            autoConfirmAt := quorum.2
            confirmedAt := none }
        .ok ({ s with deathRecords := s.deathRecords ++ [created] },
             sanitizeDeathRecord created true)

/-- The PENDING death records of one relative. -/
def pendingFor (s : DBState) (relId : Nat) : List DeathRecord :=
  s.deathRecords.filter (fun dr =>
    decide (dr.relativeId = relId ∧ dr.status = .PENDING))

/-- Spec invariant: at most one PENDING DeathRecord per relative. -/
def atMostOnePending (s : DBState) : Prop :=
  ∀ relId, (pendingFor s relId).length ≤ 1

/-- The row image of the step-1 conditional update
`UPDATE death_records SET status='CONFIRMED', confirmedAt=now
 WHERE id = record.id AND status = 'PENDING'`. -/
def casConfirm (recordId now : Nat) (dr : DeathRecord) : DeathRecord :=
  if dr.id = recordId ∧ dr.status = .PENDING then
    { dr with status := .CONFIRMED, confirmedAt := some now }
  else dr

/-- Which of the finalize transaction's fallible writes fail (step 2: the
relative update; step 3: the commemoration insert).  The happy path is
`⟨false, false⟩`. -/
structure FailureOracle where
  failRelativeUpdate : Bool
  failCommInsert : Bool
deriving DecidableEq, Repr

def FailureOracle.noFail : FailureOracle := ⟨false, false⟩

/-- Either fallible write of the finalize transaction fails. -/
def FailureOracle.fails (o : FailureOracle) : Bool :=
  o.failRelativeUpdate || o.failCommInsert

/-- The relative-row image of finalize step 2,
`UPDATE relatives SET status='DECEASED', death_year=..., death_month=...,
 death_day=... WHERE id = record.relativeId`. -/
def markDeceased (record : DeathRecord) (r : Relative) : Relative :=
  if r.id = record.relativeId then
    { r with status := .DECEASED
             deathYear := some record.deathYear
             deathMonth := record.deathMonth
             deathDay := record.deathDay }
  else r

/-- The commemoration rows finalize step 3 bulk-inserts:
`commDates.map((c) => ({ relativeId, type: c.type, commDate: c.commDate }))`. -/
def finalizeCommRows (record : DeathRecord) : List CommRow :=
  (generateCommemorationDates record.deathYear record.deathMonth
    record.deathDay).map (fun c => ⟨record.relativeId, c.type, c.commDate⟩)

/-- Body of the `db.transaction` callback in `finalizeDeathRecord`. -/
def finalizeBody (s : DBState) (record : DeathRecord) (now : Nat)
    (oracle : FailureOracle) : Except SvcError (DBState × DeathRecord) :=
  -- 1. Atomically update ONLY if still PENDING (prevents race conditions)
  match s.deathRecords.find? (fun dr =>
      decide (dr.id = record.id ∧ dr.status = .PENDING)) with
  | none =>
    -- Already finalized by another process — safe to skip
    .ok (s, record)
  | some hit =>
    let updated := { hit with status := .CONFIRMED, confirmedAt := some now }
    let s1 := { s with deathRecords := s.deathRecords.map (casConfirm record.id now) }
    -- 2. Update relative: mark as DECEASED with death date
    if oracle.failRelativeUpdate then .error (.dbError .relativeUpdateFailed)
    else
      let s2 := { s1 with relatives := s1.relatives.map (markDeceased record) }
      -- 3. Generate and insert commemorations (only if full date)
      if oracle.failCommInsert then .error (.dbError .commInsertFailed)
      else
        let commDates := finalizeCommRows record
        let s3 :=
          if commDates.length > 0 then
            { s2 with commemorations := s2.commemorations ++ commDates }
          else s2
        .ok (s3, updated)

/-- `db.transaction(fn)`: run the body; a thrown error rolls the store back
to the pre-transaction state. -/
def dbTransaction {α : Type} (s : DBState)
    (body : DBState → Except SvcError (DBState × α)) : DBState × Except SvcError α :=
  match body s with
  | .ok (s', a) => (s', .ok a)
  | .error e => (s, .error e)

/-- `finalizeDeathRecord(record)`. -/
def finalizeDeathRecord (s : DBState) (record : DeathRecord) (now : Nat)
    (oracle : FailureOracle) : DBState × Except SvcError DeathRecord :=
  dbTransaction s (fun tx => finalizeBody tx record now oracle)

/-- `confirmDeath(deathRecordId, userId, confirmed)`.  The select joins
`death_records` with `relatives` (for the treeId), so the record is "found"
only when its relative row exists.  Errors leave the store untouched: steps
1–4 throw before any write and the step-5 insert that throws is the write
that failed. -/
def confirmDeath (s : DBState) (deathRecordId userId : Nat) (confirmed : Bool)
    (now : Nat) : DBState × Except SvcError DeathRecord :=
  -- 1. Lookup death record + relative for treeId
  match s.deathRecords.find? (fun dr => decide (dr.id = deathRecordId)) with
  | none => (s, .error (.notFound "Death record"))
  | some record =>
    match s.relatives.find? (fun r => decide (r.id = record.relativeId)) with
    | none => (s, .error (.notFound "Death record"))
    | some relative =>
      -- 2. Verify tree access (any member can confirm)
      match verifyTreeAccess s relative.treeId userId .viewer with
      | .error e => (s, .error e)
      | .ok role =>
        -- 3. Only PENDING records can be confirmed/disputed
        if record.status ≠ .PENDING then
          (s, .error (.badRequest "Cannot confirm a record with this status"))
        -- 4. Reporter cannot confirm their own report
        else if record.reportedBy = userId then
          (s, .error (.badRequest "Cannot confirm your own death report"))
        -- 5. Insert confirmation (UNIQUE constraint prevents duplicates)
        else if (s.deathConfirmations.find? (fun c =>
            decide (c.deathRecordId = deathRecordId ∧ c.userId = userId))).isSome then
          (s, .error (.conflict "You have already responded to this death record"))
        else
          let s1 : DBState := { s with deathConfirmations :=
            s.deathConfirmations ++ [⟨deathRecordId, userId, confirmed⟩] }
          -- 6. Handle dispute
          if ¬confirmed then
            let s2 : DBState := { s1 with deathRecords := s1.deathRecords.map (fun dr =>
              if dr.id = deathRecordId then { dr with status := .DISPUTED } else dr) }
            match s2.deathRecords.find? (fun dr => decide (dr.id = deathRecordId)) with
            | some updated =>
              let showCause := decide (record.reportedBy = userId ∨ role = Role.owner)
              (s2, .ok (sanitizeDeathRecord updated showCause))
            | none => (s2, .error (.notFound "Death record"))
          else
            -- 7. Count confirmations and check threshold
            let totalConfirms := (s1.deathConfirmations.filter (fun c =>
              decide (c.deathRecordId = deathRecordId ∧ c.confirmed = true))).length
            let showCause := decide (record.reportedBy = userId ∨ role = Role.owner)
            if totalConfirms ≥ record.confirmationsNeeded then
              match finalizeDeathRecord s1 record now .noFail with
              | (s2, .ok updated) => (s2, .ok (sanitizeDeathRecord updated showCause))
              | (s2, .error e) => (s2, .error e)
            else
              -- Not enough confirmations yet — return current record
              (s1, .ok (sanitizeDeathRecord record showCause))

/-! ## Hourly auto-confirm sweep (src/jobs/autoConfirmDeath.js) -/

/-- Selection predicate of
`WHERE status = 'PENDING' AND auto_confirm_at <= NOW()`.
In SQL a NULL `auto_confirm_at` never satisfies `<= NOW()`. -/
def overduePending (now : Nat) (dr : DeathRecord) : Bool :=
  decide (dr.status = .PENDING) &&
    (match dr.autoConfirmAt with
     | some t => decide (t ≤ now)
     | none => false)

/-- One iteration of the sweep's for-loop: `try { await finalize; confirmed++ }
catch { failed++ }` — the loop continues either way. -/
def sweepStep (now : Nat) (oracle : Nat → FailureOracle)
    (acc : DBState × Nat × Nat) (record : DeathRecord) : DBState × Nat × Nat :=
  match finalizeDeathRecord acc.1 record now (oracle record.id) with
  | (st, .ok _) => (st, acc.2.1 + 1, acc.2.2)
  | (st, .error _) => (st, acc.2.1, acc.2.2 + 1)

/-- `autoConfirmDeathRecords()`: select the overdue PENDING records, then
finalize each inside its own try/catch — a failure is counted and the loop
continues.  `oracle` gives each record's transaction outcome by id; the
result carries the final store and the `(confirmed, failed)` counters. -/
def autoConfirmDeathRecords (s : DBState) (now : Nat)
    (oracle : Nat → FailureOracle) : DBState × Nat × Nat :=
  let pendingRecords := s.deathRecords.filter (overduePending now)
  pendingRecords.foldl (sweepStep now oracle) (s, 0, 0)

/-! ## Daily event/notification sweep (src/jobs/generateEvents.js)

The per-tree body of `generateEventsNotifications`: compute the tree's
events, load the tree's existing notification keys for the date window,
then walk every (event, member) pair, skipping keys already seen — the seen
set starts from the loaded keys and grows with each insert queued in the
batch.  The event list and member list are passed in (they come from
`getTreeEvents` and the `tree_members` select). -/

/-- Event metadata fields referenced by the notification builders. -/
structure EventMeta where
  age : Option Int := none
  holiday : Option String := none
  matchedName : Option String := none
  years : Option Int := none
  spouseId : Option Nat := none
  spouseName : Option String := none
  eventType : Option String := none
  year : Option Nat := none
deriving DecidableEq, Repr

/-- An event produced by `getTreeEvents`. -/
structure EventT where
  type : String
  date : String
  relativeId : Option Nat
  relativeName : String
  metadata : EventMeta
deriving DecidableEq, Repr

/-- A `notifications` row (columns written by the sweep; `isRead`,
`pushSent`, `createdAt` take their schema defaults and are never read by the
modeled logic). -/
structure Notification where
  userId : Nat
  treeId : Nat
  type : String
  relativeId : Option Nat
  title : String
  body : String
  eventDate : String
deriving DecidableEq, Repr

/-- `buildNotificationTitle(event)` (Bulgarian copy). -/
def buildNotificationTitle (event : EventT) : String :=
  if event.type = "BIRTHDAY" then "Рожден ден на " ++ event.relativeName
  else if event.type = "NAME_DAY" then
    "Имен ден: " ++ (event.metadata.holiday.getD "Именни дни")
  else if event.type = "COMMEMORATION_40" then "40 дни — помен за " ++ event.relativeName
  else if event.type = "COMMEMORATION_6M" then "6 месеца — помен за " ++ event.relativeName
  else if event.type = "COMMEMORATION_1Y" then "1 година — помен за " ++ event.relativeName
  else if event.type = "COMMEMORATION_ANNUAL" then "Годишен помен за " ++ event.relativeName
  else if event.type = "MARRIAGE_ANNIVERSARY" then "Годишнина от сватбата"
  else if event.type = "ON_THIS_DAY" then "На тази дата"
  else "Събитие"

/-- `buildNotificationBody(event)` (Bulgarian copy). -/
def buildNotificationBody (event : EventT) : String :=
  if event.type = "BIRTHDAY" then
    match event.metadata.age with
    | some a => event.relativeName ++ " навършва " ++ toString a ++ " години"
    | none => event.relativeName ++ " празнува рожден ден"
  else if event.type = "NAME_DAY" then event.relativeName ++ " празнува имен ден"
  else if event.type = "COMMEMORATION_40" then
    "40 дни от смъртта на " ++ event.relativeName
  else if event.type = "COMMEMORATION_6M" then
    "6 месеца от смъртта на " ++ event.relativeName
  else if event.type = "COMMEMORATION_1Y" then
    "1 година от смъртта на " ++ event.relativeName
  else if event.type = "COMMEMORATION_ANNUAL" then
    "Годишен помен за " ++ event.relativeName
  else if event.type = "MARRIAGE_ANNIVERSARY" then
    match event.metadata.years with
    | some ys => event.relativeName ++ " и " ++ (event.metadata.spouseName.getD "") ++
        " — " ++ toString ys ++ " години"
    | none => event.relativeName ++ " и " ++ (event.metadata.spouseName.getD "")
  else if event.type = "ON_THIS_DAY" then
    match event.metadata.year with
    | some y => event.relativeName ++ " — починал/а на тази дата (" ++ toString y ++ ")"
    | none => event.relativeName ++ " — починал/а на тази дата"
  else ""

/-- The dedup key
`${userId}|${type}|${relativeId ?? 'null'}|${eventDate}`. -/
def notifKey (userId : Nat) (type : String) (relativeId : Option Nat)
    (eventDate : String) : String :=
  toString userId ++ "|" ++ type ++ "|" ++
    (match relativeId with | some r => toString r | none => "null") ++ "|" ++ eventDate

def Notification.key (n : Notification) : String :=
  notifKey n.userId n.type n.relativeId n.eventDate

/-- Lexicographic order on character lists (by code point). -/
def charListLe : List Char → List Char → Bool
  | [], _ => true
  | _ :: _, [] => false
  | a :: as, b :: bs =>
    if a.val < b.val then true
    else if b.val < a.val then false
    else charListLe as bs

def strLe (a b : String) : Bool := charListLe a.data b.data

/-- `BETWEEN fromStr AND toStr` on a `date` column; ISO `YYYY-MM-DD`
strings compare lexicographically in date order. -/
def dateBetween (d lo hi : String) : Bool :=
  strLe lo d && strLe d hi

/-- The notification row queued for one (event, member) candidate. -/
def mkNotification (treeId : Nat) (event : EventT) (memberId : Nat) :
    Notification :=
  { userId := memberId
    treeId := treeId
    type := event.type
    relativeId := event.relativeId
    title := buildNotificationTitle event
    body := buildNotificationBody event
    eventDate := event.date }

/-- One iteration of the inner member loop of step 5: skip the candidate if
its key was already seen, otherwise record the key and queue the row. -/
def addCandidate (treeId : Nat) (event : EventT)
    (acc : List String × List Notification) (memberId : Nat) :
    List String × List Notification :=
  let key := notifKey memberId event.type event.relativeId event.date
  if key ∈ acc.1 then acc
  else (key :: acc.1, acc.2 ++ [mkNotification treeId event memberId])

/-- Step 5 of the per-tree loop: build the batch of new notifications,
starting the seen-key set from the pre-loaded existing keys. -/
def buildNewNotifications (treeId : Nat) (events : List EventT)
    (members : List Nat) (existingKeys : List String) : List Notification :=
  (events.foldl (fun acc event => members.foldl (addCandidate treeId event) acc)
    (existingKeys, [])).2

/-- Steps 4–6 of the per-tree loop of `generateEventsNotifications`, acting
on the `notifications` table: load this tree's keys inside the date window,
build the deduplicated batch, and append it. -/
def processTree (notifs : List Notification) (treeId : Nat)
    (events : List EventT) (members : List Nat) (fromStr toStr : String) :
    List Notification :=
  let existing := notifs.filter (fun n =>
    decide (n.treeId = treeId) && dateBetween n.eventDate fromStr toStr)
  let existingKeys := existing.map Notification.key
  notifs ++ buildNewNotifications treeId events members existingKeys

/-! ## Event projection (src/services/events.service.js)

`getTreeEvents` merges five derived event sources for one tree and date
range.  The date iteration `forEachDateInRange(from, to, cb)` is embedded as
an explicit list `rangeDates` of the calendar dates the loop visits, and the
external `bg-name-days` library index built by `buildNameDayIndex` is an
abstract `nameDayIndex` lookup — the claims proved about the projection hold
for every range enumeration and every library output. -/

/-- A spouse `relationships` row (columns selected by `getTreeEvents`). -/
structure Relationship where
  id : Nat
  personAId : Nat
  personBId : Nat
  marriageYear : Option Nat
  marriageMonth : Option Nat
  marriageDay : Option Nat
  divorceYear : Option Nat
deriving DecidableEq, Repr

/-- One `bg-name-days` entry. -/
structure NameDayEntry where
  name : String
  variants : List String
  holiday : String
deriving DecidableEq, Repr

/-- The per-date value of the name-day index: the lowercased celebrating
names and the raw entries. -/
structure NameDayInfo where
  names : List String
  entries : List NameDayEntry
deriving DecidableEq, Repr

/-- `COMM_TYPE_MAP[c.type] ?? c.type`. -/
def commTypeMap (t : String) : String :=
  if t = "DEATH_40_DAYS" then "COMMEMORATION_40"
  else if t = "DEATH_6_MONTHS" then "COMMEMORATION_6M"
  else if t = "DEATH_1_YEAR" then "COMMEMORATION_1Y"
  else if t = "DEATH_ANNIVERSARY" then "COMMEMORATION_ANNUAL"
  else t

/-- `TYPE_PRIORITY[type] ?? 99`. -/
def typePriority (t : String) : Nat :=
  if t = "BIRTHDAY" then 0
  else if t = "NAME_DAY" then 1
  else if t = "COMMEMORATION_40" ∨ t = "COMMEMORATION_6M" ∨
          t = "COMMEMORATION_1Y" ∨ t = "COMMEMORATION_ANNUAL" then 2
  else if t = "MARRIAGE_ANNIVERSARY" then 3
  else if t = "ON_THIS_DAY" then 4
  else 99

/-- `LIVING_STATUSES = new Set(['ALIVE', 'UNKNOWN'])`. -/
def isLivingStatus (st : RelStatus) : Bool :=
  decide (st = .ALIVE) || decide (st = .UNKNOWN)

/-- `monthDayKey(month, day)`: the `"MM-DD"` index key. -/
def monthDayKey (month day : Nat) : String := pad2 month ++ "-" ++ pad2 day

/-- `extractNameParts(fullName)`: split on whitespace, drop empties (the
source splits on `/\s+/`; the embedding splits on spaces). -/
def extractNameParts (fullName : String) : List String :=
  ((fullName.splitOn " ").map (fun p => p.trim)).filter (fun p => p.length > 0)

/-- `computeBirthdays(livingRelatives, from, to)`.  The month-day index
lookup `byMonthDay.get(key)` returns the insertion-ordered items with that
key, embedded as a filter. -/
def computeBirthdays (livingRelatives : List Relative) (rangeDates : List JDate) :
    List EventT :=
  let withBirth := livingRelatives.filter (fun r =>
    decide (r.birthMonth ≠ none ∧ r.birthDay ≠ none))
  rangeDates.foldl (fun evs date =>
    let key := monthDayKey date.month date.day
    let hits := withBirth.filter (fun r =>
      decide (monthDayKey (r.birthMonth.getD 0) (r.birthDay.getD 0) = key))
    evs ++ hits.map (fun rel =>
      { type := "BIRTHDAY"
        date := toISODate date
        relativeId := some rel.id
        relativeName := rel.fullName
        metadata := { age := match rel.birthYear with
                             | some b => some ((date.year : Int) - (b : Int))
                             | none => none } })) []

/-- `computeNameDays(livingRelatives, from, to)`: for every visited date with
a name-day index entry, each relative contributes at most one NAME_DAY event
for its first name part found among the celebrating names. -/
def computeNameDays (livingRelatives : List Relative) (rangeDates : List JDate)
    (nameDayIndex : String → Option NameDayInfo) : List EventT :=
  if livingRelatives.length = 0 then []
  else
    rangeDates.foldl (fun evs date =>
      match nameDayIndex (toISODate date) with
      | none => evs
      | some dayInfo =>
        evs ++ livingRelatives.filterMap (fun rel =>
          match ((extractNameParts rel.fullName).map String.toLower).find?
              (fun part => decide (part ∈ dayInfo.names)) with
          | none => none
          | some part =>
            let matchedEntry := dayInfo.entries.find? (fun e =>
              decide (e.name.toLower = part) ||
                e.variants.any (fun v => decide (v.toLower = part)))
            some
              { type := "NAME_DAY"
                date := toISODate date
                relativeId := some rel.id
                relativeName := rel.fullName
                metadata :=
                  { holiday := some ((matchedEntry.map (fun e => e.holiday)).getD "")
                    matchedName := some (match matchedEntry with
                      | some e => e.name
                      | none =>
                        ((extractNameParts rel.fullName).find?
                          (fun p => decide (p.toLower = part))).getD part) } })) []

/-- `computeCommemorations(commRows, relativeMap)`. -/
def computeCommemorations (commRows : List CommRow) (treeRelatives : List Relative) :
    List EventT :=
  commRows.map (fun c =>
    let rel := treeRelatives.find? (fun r => decide (r.id = c.relativeId))
    { type := commTypeMap c.type
      date := c.commDate
      relativeId := some c.relativeId
      relativeName := (rel.map (fun r => r.fullName)).getD ""
      metadata := {} })

/-- `computeAnniversaries(spouseRelationships, relativeMap, from, to)`. -/
def computeAnniversaries (spouseRelationships : List Relationship)
    (treeRelatives : List Relative) (rangeDates : List JDate) : List EventT :=
  let eligible := spouseRelationships.filter (fun r =>
    decide (r.marriageMonth ≠ none ∧ r.marriageDay ≠ none ∧ r.divorceYear = none))
  rangeDates.foldl (fun evs date =>
    let key := monthDayKey date.month date.day
    let hits := eligible.filter (fun r =>
      decide (monthDayKey (r.marriageMonth.getD 0) (r.marriageDay.getD 0) = key))
    evs ++ hits.filterMap (fun rel =>
      match treeRelatives.find? (fun r => decide (r.id = rel.personAId)),
            treeRelatives.find? (fun r => decide (r.id = rel.personBId)) with
      | some personA, some personB =>
        some
          { type := "MARRIAGE_ANNIVERSARY"
            date := toISODate date
            relativeId := some rel.personAId
            relativeName := personA.fullName
            metadata :=
              { years := match rel.marriageYear with
                         | some y => some ((date.year : Int) - (y : Int))
                         | none => none
                spouseId := some rel.personBId
                spouseName := some personB.fullName } }
      | _, _ => none)) []

/-- `computeOnThisDay(deceasedRelatives, from, to)`. -/
def computeOnThisDay (deceasedRelatives : List Relative) (rangeDates : List JDate) :
    List EventT :=
  let withDeathDate := deceasedRelatives.filter (fun r =>
    decide (r.deathMonth ≠ none ∧ r.deathDay ≠ none))
  rangeDates.foldl (fun evs date =>
    let key := monthDayKey date.month date.day
    let hits := withDeathDate.filter (fun r =>
      decide (monthDayKey (r.deathMonth.getD 0) (r.deathDay.getD 0) = key))
    evs ++ hits.map (fun rel =>
      { type := "ON_THIS_DAY"
        date := toISODate date
        relativeId := some rel.id
        relativeName := rel.fullName
        metadata := { eventType := some "death", year := rel.deathYear } })) []

/-- The sort comparator: date ascending, then `TYPE_PRIORITY` ascending. -/
def eventLe (a b : EventT) : Bool :=
  decide (a.date < b.date) ||
    (decide (a.date = b.date) && decide (typePriority a.type ≤ typePriority b.type))

/-- `getTreeEvents(treeId, fromStr, toStr)` after its three parallel selects:
the five event sources over the tree's rows, concatenated and sorted. -/
def getTreeEvents (treeRelatives : List Relative)
    (spouseRelationships : List Relationship) (treeComms : List CommRow)
    (rangeDates : List JDate) (nameDayIndex : String → Option NameDayInfo) :
    List EventT :=
  let livingRelatives := treeRelatives.filter (fun r => isLivingStatus r.status)
  let deceasedRelatives := treeRelatives.filter (fun r => decide (r.status = .DECEASED))
  let events :=
    computeBirthdays livingRelatives rangeDates ++
    computeNameDays livingRelatives rangeDates nameDayIndex ++
    computeCommemorations treeComms treeRelatives ++
    computeAnniversaries spouseRelationships treeRelatives rangeDates ++
    computeOnThisDay deceasedRelatives rangeDates
  events.mergeSort eventLe

deriving instance DecidableEq for Except

/-- A service call outcome is an error (of any kind). -/
def isError {ε α : Type} : Except ε α → Bool
  | .error _ => true
  | .ok _ => false

/-- A service call outcome is an error classified Forbidden (HTTP 403). -/
def errorIsForbidden {α : Type} : Except SvcError α → Bool
  | .error e => e.isForbidden
  | .ok _ => false

/-! ## Concrete fixtures for closed witnesses -/

def wRelative : Relative :=
  { id := 5, treeId := 1, fullName := "Мария Иванова", status := .ALIVE
    birthYear := some 1950, birthMonth := some 3, birthDay := some 14
    deathYear := none, deathMonth := none, deathDay := none }

/-- A PENDING report by user 10 with a full death date. -/
def wRecord : DeathRecord :=
  { id := 100, relativeId := 5, reportedBy := 10, deathYear := 2024
    deathMonth := some 1, deathDay := some 31, causeOfDeath := some "illness"
    status := .PENDING, confirmationsNeeded := 1, autoConfirmAt := none
    confirmedAt := none }

/-- A PENDING zero-quorum report with a partial death date, auto-confirm
deadline at t = 1000. -/
def wRecordPartial : DeathRecord :=
  { wRecord with id := 101, deathMonth := none, deathDay := none
                 confirmationsNeeded := 0, autoConfirmAt := some 1000 }

/-- Tree 1 with an owner (10), an editor (20) and a viewer (30). -/
def wState : DBState :=
  { trees := [⟨1⟩]
    treeMembers := [⟨1, 10, .owner⟩, ⟨1, 20, .editor⟩, ⟨1, 30, .viewer⟩]
    relatives := [wRelative]
    deathRecords := [wRecord]
    deathConfirmations := []
    commemorations := [] }

def wStatePartial : DBState := { wState with deathRecords := [wRecordPartial] }

def wStateDisputed : DBState :=
  { wState with deathRecords := [{ wRecord with status := .DISPUTED }] }

/-- A zero-quorum record overdue at t = 100. -/
def wRecordAuto : DeathRecord :=
  { wRecord with confirmationsNeeded := 0, autoConfirmAt := some 50 }

/-- A zero-quorum record for a second relative, not yet due at t = 100. -/
def wRecordFuture : DeathRecord :=
  { wRecord with id := 102, relativeId := 6
                 confirmationsNeeded := 0, autoConfirmAt := some 1000000 }

def wRelative2 : Relative := { wRelative with id := 6, fullName := "Георги Иванов" }

def wStateAuto : DBState :=
  { wState with relatives := [wRelative, wRelative2]
                deathRecords := [wRecordAuto, wRecordFuture] }

/-- A birthday event inside the window 2026-10-11 .. 2026-10-18. -/
def wEvent : EventT :=
  { type := "BIRTHDAY", date := "2026-10-12", relativeId := some 5
    relativeName := "Мария Иванова", metadata := {} }

/-- A deceased relative whose birth month/day (March 14) falls inside the
projected range. -/
def wRelativeDeceased : Relative :=
  { wRelative with id := 7, status := .DECEASED }

end Kintales

namespace Kintales

/-! ## Helper lemmas -/

theorem casConfirm_id (i now : Nat) (dr : DeathRecord) :
    (casConfirm i now dr).id = dr.id := by
  unfold casConfirm; split_ifs <;> rfl

theorem casConfirm_of_ne (i now : Nat) (dr : DeathRecord)
    (h : dr.id ≠ i ∨ dr.status ≠ .PENDING) : casConfirm i now dr = dr := by
  unfold casConfirm
  rw [if_neg]
  rintro ⟨h1, h2⟩
  rcases h with h | h
  · exact h h1
  · exact h h2

/-- Finding a row by id commutes with an id-preserving row update. -/
theorem find?_id_of_map (f : DeathRecord → DeathRecord)
    (hf : ∀ dr, (f dr).id = dr.id) (l : List DeathRecord) (i : Nat) :
    (l.map f).find? (fun dr => decide (dr.id = i)) =
      (l.find? (fun dr => decide (dr.id = i))).map f := by
  induction l with
  | nil => rfl
  | cons a t ih =>
    by_cases h : a.id = i
    · rw [List.map_cons, List.find?_cons_of_pos _ (by simp [hf, h]),
        List.find?_cons_of_pos _ (by simp [h]), Option.map_some']
    · rw [List.map_cons, List.find?_cons_of_neg _ (by simp [hf, h]),
        List.find?_cons_of_neg _ (by simp [h]), ih]

/-- CAS miss: finalize is a successful no-op returning the passed record. -/
theorem finalize_miss (s : DBState) (record : DeathRecord) (now : Nat)
    (oracle : FailureOracle)
    (hfind : s.deathRecords.find? (fun dr =>
      decide (dr.id = record.id ∧ dr.status = .PENDING)) = none) :
    finalizeDeathRecord s record now oracle = (s, .ok record) := by
  simp only [finalizeDeathRecord, dbTransaction, finalizeBody]
  rw [hfind]

/-- CAS hit with a failing step: the transaction rolls back. -/
theorem finalize_fail (s : DBState) (record hit : DeathRecord) (now : Nat)
    (oracle : FailureOracle)
    (hfind : s.deathRecords.find? (fun dr =>
      decide (dr.id = record.id ∧ dr.status = .PENDING)) = some hit)
    (hfail : oracle.fails = true) :
    (finalizeDeathRecord s record now oracle).1 = s ∧
    ∃ e, (finalizeDeathRecord s record now oracle).2 = .error (.dbError e) := by
  have hfail' : oracle.failRelativeUpdate = true ∨ oracle.failCommInsert = true := by
    simpa [FailureOracle.fails] using hfail
  simp only [finalizeDeathRecord, dbTransaction, finalizeBody]
  rw [hfind]
  rcases h2 : oracle.failRelativeUpdate with _ | _
  · rcases h3 : oracle.failCommInsert with _ | _
    · simp [h2, h3] at hfail'
    · simp [h2, h3]
  · simp [h2]

/-- CAS hit with no failing step: all three writes land. -/
theorem finalize_hit (s : DBState) (record hit : DeathRecord) (now : Nat)
    (oracle : FailureOracle)
    (hfind : s.deathRecords.find? (fun dr =>
      decide (dr.id = record.id ∧ dr.status = .PENDING)) = some hit)
    (hok : oracle.fails = false) :
    (finalizeDeathRecord s record now oracle).1 =
      { s with deathRecords := s.deathRecords.map (casConfirm record.id now)
               relatives := s.relatives.map (markDeceased record)
               commemorations := s.commemorations ++ finalizeCommRows record } ∧
    (finalizeDeathRecord s record now oracle).2 =
      .ok { hit with status := .CONFIRMED, confirmedAt := some now } := by
  have h2 : oracle.failRelativeUpdate = false := by
    cases h : oracle.failRelativeUpdate <;> simp_all [FailureOracle.fails]
  have h3 : oracle.failCommInsert = false := by
    cases h : oracle.failCommInsert <;> simp_all [FailureOracle.fails]
  simp only [finalizeDeathRecord, dbTransaction, finalizeBody]
  rw [hfind, h2, h3]
  simp only [Bool.false_eq_true, if_false]
  rcases hgen : finalizeCommRows record with _ | ⟨c, cs⟩ <;> simp

/-- A row whose id avoids the CAS target (or that is not PENDING) stays
untouched by finalize. -/
theorem finalize_preserves_other_rows (s : DBState) (record : DeathRecord)
    (now : Nat) (oracle : FailureOracle) (dr : DeathRecord)
    (hmem : dr ∈ s.deathRecords) (h : dr.id ≠ record.id ∨ dr.status ≠ .PENDING) :
    dr ∈ (finalizeDeathRecord s record now oracle).1.deathRecords := by
  rcases hfind : s.deathRecords.find? (fun dr0 =>
      decide (dr0.id = record.id ∧ dr0.status = .PENDING)) with _ | hit
  · rw [finalize_miss s record now oracle hfind]; exact hmem
  · rcases hfail : oracle.fails with _ | _
    · rw [(finalize_hit s record hit now oracle hfind hfail).1]
      have hmap : casConfirm record.id now dr ∈
          s.deathRecords.map (casConfirm record.id now) :=
        List.mem_map_of_mem (casConfirm record.id now) hmem
      rwa [casConfirm_of_ne record.id now dr h] at hmap
    · rw [(finalize_fail s record hit now oracle hfind hfail).1]; exact hmem

/-- Finalize never changes the list of record ids (it only updates rows in
place). -/
theorem finalize_preserves_ids (s : DBState) (record : DeathRecord) (now : Nat)
    (oracle : FailureOracle) :
    (finalizeDeathRecord s record now oracle).1.deathRecords.map (fun dr => dr.id)
      = s.deathRecords.map (fun dr => dr.id) := by
  rcases hfind : s.deathRecords.find? (fun dr0 =>
      decide (dr0.id = record.id ∧ dr0.status = .PENDING)) with _ | hit
  · rw [finalize_miss s record now oracle hfind]
  · rcases hfail : oracle.fails with _ | _
    · rw [(finalize_hit s record hit now oracle hfind hfail).1]
      simp only [List.map_map]
      exact List.map_congr_left (fun dr _ => casConfirm_id record.id now dr)
    · rw [(finalize_fail s record hit now oracle hfind hfail).1]

/-- The sweep step's state component is the finalize post-state. -/
theorem sweepStep_state (now : Nat) (oracle : Nat → FailureOracle)
    (acc : DBState × Nat × Nat) (record : DeathRecord) :
    (sweepStep now oracle acc record).1 =
      (finalizeDeathRecord acc.1 record now (oracle record.id)).1 := by
  unfold sweepStep
  rcases h : finalizeDeathRecord acc.1 record now (oracle record.id) with ⟨st, r⟩
  rcases r <;> rfl

/-- A row whose id is hit by no record of the work list survives the whole
sweep loop unchanged. -/
theorem sweepLoop_untouched (now : Nat) (oracle : Nat → FailureOracle) :
    ∀ (l : List DeathRecord) (acc : DBState × Nat × Nat) (dr : DeathRecord),
      dr ∈ acc.1.deathRecords → (∀ r ∈ l, r.id ≠ dr.id) →
      dr ∈ (l.foldl (sweepStep now oracle) acc).1.deathRecords := by
  intro l
  induction l with
  | nil => intro acc dr h _; exact h
  | cons a t ih =>
    intro acc dr hdr hne
    rw [List.foldl_cons]
    refine ih _ dr ?_ (fun r hr => hne r (List.mem_cons_of_mem a hr))
    rw [sweepStep_state]
    exact finalize_preserves_other_rows acc.1 a now (oracle a.id) dr hdr
      (Or.inl (Ne.symm (hne a (List.mem_cons_self a t))))

/-- Every record of the work list whose own finalize does not fail ends the
sweep loop CONFIRMED, no matter what happens to the other records. -/
theorem sweepLoop_processed (now : Nat) (oracle : Nat → FailureOracle) :
    ∀ (l : List DeathRecord) (acc : DBState × Nat × Nat) (r : DeathRecord),
      (l.map (fun r0 => r0.id)).Nodup →
      (acc.1.deathRecords.map (fun dr => dr.id)).Nodup →
      (∀ r0 ∈ l, r0 ∈ acc.1.deathRecords ∧ r0.status = .PENDING) →
      r ∈ l → (oracle r.id).fails = false →
      { r with status := .CONFIRMED, confirmedAt := some now } ∈
        (l.foldl (sweepStep now oracle) acc).1.deathRecords := by
  intro l
  induction l with
  | nil => intro acc r _ _ _ hmem _; cases hmem
  | cons a t ih =>
    intro acc r hnl hnacc hsub hmem hok
    rw [List.foldl_cons]
    have hna : a.id ∉ t.map (fun r0 => r0.id) := (List.nodup_cons.mp hnl).1
    have hmema := hsub a (List.mem_cons_self a t)
    rcases List.mem_cons.mp hmem with rfl | hmemt
    · -- the head record itself: its finalize hits and succeeds
      have hfind : (acc.1.deathRecords.find? (fun dr0 =>
          decide (dr0.id = r.id ∧ dr0.status = .PENDING))).isSome :=
        List.find?_isSome.mpr ⟨r, hmema.1, by simp [hmema.2]⟩
      obtain ⟨hit, hfind⟩ := Option.isSome_iff_exists.mp hfind
      have hpred := List.find?_some hfind
      simp only [decide_eq_true_eq] at hpred
      have hhit : hit = r := List.inj_on_of_nodup_map hnacc
        (List.mem_of_find?_eq_some hfind) hmema.1 hpred.1
      rw [hhit] at hfind
      have heff := finalize_hit acc.1 r r now (oracle r.id) hfind hok
      refine sweepLoop_untouched now oracle t _ _ ?_ ?_
      · rw [sweepStep_state, heff.1]
        refine List.mem_map.mpr ⟨r, hmema.1, ?_⟩
        simp [casConfirm, hmema.2]
      · intro r0 hr0 hcontra
        exact hna (by rw [← hcontra]; exact List.mem_map_of_mem _ hr0)
    · -- a record further down the list: one step preserves its row
      refine ih _ r (List.nodup_cons.mp hnl).2 ?_ ?_ hmemt hok
      · rw [sweepStep_state, finalize_preserves_ids]
        exact hnacc
      · intro r0 hr0
        obtain ⟨hr0mem, hr0st⟩ := hsub r0 (List.mem_cons_of_mem a hr0)
        refine ⟨?_, hr0st⟩
        rw [sweepStep_state]
        refine finalize_preserves_other_rows acc.1 a now (oracle a.id) r0 hr0mem
          (Or.inl ?_)
        intro hcontra
        exact hna (by rw [← hcontra]; exact List.mem_map_of_mem _ hr0)

/-- The queued row's dedup key is exactly the candidate key that was added
to the seen set alongside it. -/
theorem mkNotification_key (treeId : Nat) (event : EventT) (memberId : Nat) :
    (mkNotification treeId event memberId).key =
      notifKey memberId event.type event.relativeId event.date := rfl

/-- One step of the batch build preserves: the seen set is exactly the
pre-loaded keys plus the queued rows' keys; the queued keys are distinct;
none of them is a pre-loaded key; and every queued row satisfies `Q`. -/
theorem addCandidate_invariant (treeId : Nat) (keys0 : List String)
    (Q : Notification → Prop) (event : EventT) (memberId : Nat)
    (acc : List String × List Notification)
    (hQe : ∀ m, Q (mkNotification treeId event m))
    (h1 : ∀ k, k ∈ acc.1 ↔ (k ∈ keys0 ∨ k ∈ acc.2.map Notification.key))
    (h2 : (acc.2.map Notification.key).Nodup)
    (h3 : ∀ n ∈ acc.2, Q n)
    (h4 : ∀ k ∈ acc.2.map Notification.key, k ∉ keys0) :
    (∀ k, k ∈ (addCandidate treeId event acc memberId).1 ↔
      (k ∈ keys0 ∨
        k ∈ (addCandidate treeId event acc memberId).2.map Notification.key)) ∧
    ((addCandidate treeId event acc memberId).2.map Notification.key).Nodup ∧
    (∀ n ∈ (addCandidate treeId event acc memberId).2, Q n) ∧
    (∀ k ∈ (addCandidate treeId event acc memberId).2.map Notification.key,
      k ∉ keys0) := by
  unfold addCandidate
  by_cases hk : notifKey memberId event.type event.relativeId event.date ∈ acc.1
  · rw [if_pos hk]; exact ⟨h1, h2, h3, h4⟩
  · rw [if_neg hk]
    refine ⟨?_, ?_, ?_, ?_⟩
    · intro k
      simp only [List.mem_cons, List.map_append, List.map_cons, List.map_nil,
        List.mem_append, mkNotification_key]
      rw [h1 k]
      constructor
      · rintro (rfl | h | h)
        · exact Or.inr (Or.inr (Or.inl rfl))
        · exact Or.inl h
        · exact Or.inr (Or.inl h)
      · rintro (h | h | rfl | h)
        · exact Or.inr (Or.inl h)
        · exact Or.inr (Or.inr h)
        · exact Or.inl rfl
        · cases h
    · simp only [List.map_append, List.map_cons, List.map_nil, mkNotification_key]
      refine List.Nodup.append h2 (List.nodup_singleton _) ?_
      intro k hkin hksing
      rw [List.mem_singleton.mp hksing] at hkin
      exact hk ((h1 _).mpr (Or.inr hkin))
    · intro n hn
      rcases List.mem_append.mp hn with h | h
      · exact h3 n h
      · rw [List.mem_singleton.mp h]; exact hQe memberId
    · intro k hkin
      simp only [List.map_append, List.map_cons, List.map_nil, List.mem_append,
        mkNotification_key] at hkin
      rcases hkin with h | h
      · exact h4 k h
      · have hks := List.mem_singleton.mp h
        subst hks
        exact fun hcontra => hk ((h1 _).mpr (Or.inl hcontra))

/-- The inner member loop preserves the batch invariant. -/
theorem memberFold_invariant (treeId : Nat) (keys0 : List String)
    (Q : Notification → Prop) (event : EventT)
    (hQe : ∀ m, Q (mkNotification treeId event m)) :
    ∀ (members : List Nat) (acc : List String × List Notification),
      (∀ k, k ∈ acc.1 ↔ (k ∈ keys0 ∨ k ∈ acc.2.map Notification.key)) →
      (acc.2.map Notification.key).Nodup → (∀ n ∈ acc.2, Q n) →
      (∀ k ∈ acc.2.map Notification.key, k ∉ keys0) →
      (∀ k, k ∈ (members.foldl (addCandidate treeId event) acc).1 ↔
        (k ∈ keys0 ∨ k ∈ (members.foldl (addCandidate treeId event) acc).2.map
          Notification.key)) ∧
      ((members.foldl (addCandidate treeId event) acc).2.map Notification.key).Nodup ∧
      (∀ n ∈ (members.foldl (addCandidate treeId event) acc).2, Q n) ∧
      (∀ k ∈ (members.foldl (addCandidate treeId event) acc).2.map
        Notification.key, k ∉ keys0) := by
  intro members
  induction members with
  | nil => intro acc h1 h2 h3 h4; exact ⟨h1, h2, h3, h4⟩
  | cons m t ih =>
    intro acc h1 h2 h3 h4
    rw [List.foldl_cons]
    obtain ⟨g1, g2, g3, g4⟩ :=
      addCandidate_invariant treeId keys0 Q event m acc hQe h1 h2 h3 h4
    exact ih _ g1 g2 g3 g4

/-- The outer event loop preserves the batch invariant. -/
theorem eventFold_invariant (treeId : Nat) (keys0 : List String)
    (Q : Notification → Prop) (members : List Nat) :
    ∀ (events : List EventT) (acc : List String × List Notification),
      (∀ e ∈ events, ∀ m, Q (mkNotification treeId e m)) →
      (∀ k, k ∈ acc.1 ↔ (k ∈ keys0 ∨ k ∈ acc.2.map Notification.key)) →
      (acc.2.map Notification.key).Nodup → (∀ n ∈ acc.2, Q n) →
      (∀ k ∈ acc.2.map Notification.key, k ∉ keys0) →
      (∀ k, k ∈ (events.foldl (fun acc0 event =>
          members.foldl (addCandidate treeId event) acc0) acc).1 ↔
        (k ∈ keys0 ∨ k ∈ (events.foldl (fun acc0 event =>
          members.foldl (addCandidate treeId event) acc0) acc).2.map
          Notification.key)) ∧
      ((events.foldl (fun acc0 event =>
        members.foldl (addCandidate treeId event) acc0) acc).2.map
        Notification.key).Nodup ∧
      (∀ n ∈ (events.foldl (fun acc0 event =>
        members.foldl (addCandidate treeId event) acc0) acc).2, Q n) ∧
      (∀ k ∈ (events.foldl (fun acc0 event =>
        members.foldl (addCandidate treeId event) acc0) acc).2.map
        Notification.key, k ∉ keys0) := by
  intro events
  induction events with
  | nil => intro acc _ h1 h2 h3 h4; exact ⟨h1, h2, h3, h4⟩
  | cons e t ih =>
    intro acc hQ h1 h2 h3 h4
    rw [List.foldl_cons]
    obtain ⟨g1, g2, g3, g4⟩ := memberFold_invariant treeId keys0 Q e
      (hQ e (List.mem_cons_self e t)) members acc h1 h2 h3 h4
    exact ih _ (fun e' he' m => hQ e' (List.mem_cons_of_mem e he') m) g1 g2 g3 g4

/-- The seen set only grows along the inner loop. -/
theorem memberFold_mono (treeId : Nat) (event : EventT) :
    ∀ (members : List Nat) (acc : List String × List Notification) (k : String),
      k ∈ acc.1 → k ∈ (members.foldl (addCandidate treeId event) acc).1 := by
  intro members
  induction members with
  | nil => intro acc k h; exact h
  | cons m t ih =>
    intro acc k h
    rw [List.foldl_cons]
    refine ih _ k ?_
    unfold addCandidate
    by_cases hk : notifKey m event.type event.relativeId event.date ∈ acc.1
    · rwa [if_pos hk]
    · rw [if_neg hk]; exact List.mem_cons_of_mem _ h

/-- After the inner loop every member's candidate key is in the seen set. -/
theorem memberFold_candidate (treeId : Nat) (event : EventT) :
    ∀ (members : List Nat) (acc : List String × List Notification),
      ∀ m ∈ members, notifKey m event.type event.relativeId event.date ∈
        (members.foldl (addCandidate treeId event) acc).1 := by
  intro members
  induction members with
  | nil => intro acc m h; cases h
  | cons m0 t ih =>
    intro acc m hm
    rw [List.foldl_cons]
    rcases List.mem_cons.mp hm with rfl | hmt
    · refine memberFold_mono treeId event t _ _ ?_
      unfold addCandidate
      by_cases hk : notifKey m event.type event.relativeId event.date ∈ acc.1
      · rwa [if_pos hk]
      · rw [if_neg hk]; exact List.mem_cons_self _ _
    · exact ih _ m hmt

/-- The seen set only grows along the outer loop, and at the end it holds
every (event, member) candidate key. -/
theorem eventFold_candidate (treeId : Nat) (members : List Nat) :
    ∀ (events : List EventT) (acc : List String × List Notification),
      (∀ k ∈ acc.1, k ∈ (events.foldl (fun acc0 event =>
        members.foldl (addCandidate treeId event) acc0) acc).1) ∧
      ∀ e ∈ events, ∀ m ∈ members,
        notifKey m e.type e.relativeId e.date ∈ (events.foldl (fun acc0 event =>
          members.foldl (addCandidate treeId event) acc0) acc).1 := by
  intro events
  induction events with
  | nil => intro acc; exact ⟨fun k h => h, fun e he => nomatch he⟩
  | cons e0 t ih =>
    intro acc
    constructor
    · intro k h
      rw [List.foldl_cons]
      exact (ih _).1 k (memberFold_mono treeId e0 members acc k h)
    · intro e he m hm
      rw [List.foldl_cons]
      rcases List.mem_cons.mp he with rfl | het
      · exact (ih _).1 _ (memberFold_candidate treeId e members acc m hm)
      · exact (ih _).2 e het m hm

/-- When every candidate key is already seen, the inner loop adds nothing. -/
theorem memberFold_skip (treeId : Nat) (event : EventT) :
    ∀ (members : List Nat) (acc : List String × List Notification),
      (∀ m ∈ members, notifKey m event.type event.relativeId event.date ∈ acc.1) →
      members.foldl (addCandidate treeId event) acc = acc := by
  intro members
  induction members with
  | nil => intro acc _; rfl
  | cons m t ih =>
    intro acc h
    rw [List.foldl_cons]
    have hstep : addCandidate treeId event acc m = acc := by
      unfold addCandidate
      rw [if_pos (h m (List.mem_cons_self m t))]
    rw [hstep]
    exact ih _ (fun m' hm' => h m' (List.mem_cons_of_mem m hm'))

/-- When every (event, member) candidate key is already seen, the whole
batch build queues nothing. -/
theorem eventFold_skip (treeId : Nat) (members : List Nat) :
    ∀ (events : List EventT) (acc : List String × List Notification),
      (∀ e ∈ events, ∀ m ∈ members,
        notifKey m e.type e.relativeId e.date ∈ acc.1) →
      events.foldl (fun acc0 event =>
        members.foldl (addCandidate treeId event) acc0) acc = acc := by
  intro events
  induction events with
  | nil => intro acc _; rfl
  | cons e t ih =>
    intro acc h
    rw [List.foldl_cons,
      memberFold_skip treeId e members acc (h e (List.mem_cons_self e t))]
    exact ih _ (fun e' he' => h e' (List.mem_cons_of_mem e he'))

/-- A property closed under each loop body holds of every element the
fold produces. -/
theorem foldl_mem_pred {α β : Type} (f : List α → β → List α) (P : α → Prop)
    (hf : ∀ acc b x, (∀ y ∈ acc, P y) → x ∈ f acc b → P x) :
    ∀ (l : List β) (init : List α), (∀ y ∈ init, P y) →
      ∀ x ∈ l.foldl f init, P x := by
  intro l
  induction l with
  | nil => intro init h x hx; exact h x hx
  | cons b t ih =>
    intro init h x hx
    exact ih _ (fun y hy => hf init b y h hy) x hx

/-- Every BIRTHDAY event produced by `computeBirthdays` references one of
the living relatives it was given. -/
theorem computeBirthdays_src (livingRelatives : List Relative)
    (rangeDates : List JDate) (ev : EventT)
    (hev : ev ∈ computeBirthdays livingRelatives rangeDates) :
    ∃ r ∈ livingRelatives, ev.relativeId = some r.id := by
  refine foldl_mem_pred _
    (fun ev0 => ∃ r ∈ livingRelatives, ev0.relativeId = some r.id)
    ?_ rangeDates [] (fun y hy => absurd hy (List.not_mem_nil y)) ev hev
  intro acc date x hacc hx
  rcases List.mem_append.mp hx with h | h
  · exact hacc x h
  · obtain ⟨rel, hrel, heq⟩ := List.mem_map.mp h
    exact ⟨rel, List.mem_of_mem_filter (List.mem_of_mem_filter hrel),
      by rw [← heq]⟩

/-- Every NAME_DAY event produced by `computeNameDays` references one of
the living relatives it was given. -/
theorem computeNameDays_src (livingRelatives : List Relative)
    (rangeDates : List JDate) (nameDayIndex : String → Option NameDayInfo)
    (ev : EventT)
    (hev : ev ∈ computeNameDays livingRelatives rangeDates nameDayIndex) :
    ∃ r ∈ livingRelatives, ev.relativeId = some r.id := by
  unfold computeNameDays at hev
  by_cases hlen : livingRelatives.length = 0
  · rw [if_pos hlen] at hev; cases hev
  · rw [if_neg hlen] at hev
    refine foldl_mem_pred _
      (fun ev0 => ∃ r ∈ livingRelatives, ev0.relativeId = some r.id)
      ?_ rangeDates [] (fun y hy => absurd hy (List.not_mem_nil y)) ev hev
    intro acc date x hacc hx
    rcases hidx : nameDayIndex (toISODate date) with _ | dayInfo <;>
      rw [hidx] at hx
    · exact hacc x hx
    · rcases List.mem_append.mp hx with h | h
      · exact hacc x h
      · obtain ⟨rel, hrel, heq⟩ := List.mem_filterMap.mp h
        rcases hfind : ((extractNameParts rel.fullName).map String.toLower).find?
            (fun part => decide (part ∈ dayInfo.names)) with _ | part <;>
          rw [hfind] at heq
        · cases heq
        · refine ⟨rel, hrel, ?_⟩
          obtain rfl := Option.some.inj heq
          rfl

/-- Every event produced by `computeCommemorations` carries a mapped
commemoration type. -/
theorem computeCommemorations_types (commRows : List CommRow)
    (treeRelatives : List Relative) (ev : EventT)
    (hev : ev ∈ computeCommemorations commRows treeRelatives) :
    ∃ c ∈ commRows, ev.type = commTypeMap c.type := by
  obtain ⟨c, hc, heq⟩ := List.mem_map.mp hev
  exact ⟨c, hc, by rw [← heq]⟩

/-- Every event produced by `computeAnniversaries` has the
MARRIAGE_ANNIVERSARY type. -/
theorem computeAnniversaries_types (spouseRelationships : List Relationship)
    (treeRelatives : List Relative) (rangeDates : List JDate) (ev : EventT)
    (hev : ev ∈ computeAnniversaries spouseRelationships treeRelatives rangeDates) :
    ev.type = "MARRIAGE_ANNIVERSARY" := by
  refine foldl_mem_pred _ (fun ev0 => ev0.type = "MARRIAGE_ANNIVERSARY")
    ?_ rangeDates [] (fun y hy => absurd hy (List.not_mem_nil y)) ev hev
  intro acc date x hacc hx
  rcases List.mem_append.mp hx with h | h
  · exact hacc x h
  · obtain ⟨rel, -, heq⟩ := List.mem_filterMap.mp h
    rcases hfa : treeRelatives.find? (fun r => decide (r.id = rel.personAId))
      with _ | personA <;> rw [hfa] at heq
    · cases heq
    · rcases hfb : treeRelatives.find? (fun r => decide (r.id = rel.personBId))
        with _ | personB <;> rw [hfb] at heq
      · cases heq
      · obtain rfl := Option.some.inj heq
        rfl

/-- Every event produced by `computeOnThisDay` has the ON_THIS_DAY type. -/
theorem computeOnThisDay_types (deceasedRelatives : List Relative)
    (rangeDates : List JDate) (ev : EventT)
    (hev : ev ∈ computeOnThisDay deceasedRelatives rangeDates) :
    ev.type = "ON_THIS_DAY" := by
  refine foldl_mem_pred _ (fun ev0 => ev0.type = "ON_THIS_DAY")
    ?_ rangeDates [] (fun y hy => absurd hy (List.not_mem_nil y)) ev hev
  intro acc date x hacc hx
  rcases List.mem_append.mp hx with h | h
  · exact hacc x h
  · obtain ⟨rel, -, heq⟩ := List.mem_map.mp h
    rw [← heq]

/-! ## Theorems -/

/-- C7: commemoration derivation computes the spec's date arithmetic.  For a
full death date the three derived dates are death + 40 days, death + 6
months and death + 12 months (the latter shared by DEATH_1_YEAR and
DEATH_ANNIVERSARY); month addition lands in the target month with the
day-of-month capped to that month's length, never overflowing into the
following month; and on the concrete date 2024-01-31 the derived dates are
2024-03-11, 2024-07-31 and 2025-01-31. -/
theorem C7_commemoration_date_arithmetic :
    (generateCommemorationDates 2024 (some 1) (some 31) =
      [ ⟨"DEATH_40_DAYS", "2024-03-11"⟩,
        ⟨"DEATH_6_MONTHS", "2024-07-31"⟩,
        ⟨"DEATH_1_YEAR", "2025-01-31"⟩,
        ⟨"DEATH_ANNIVERSARY", "2025-01-31"⟩ ]) ∧
    (∀ y m d k,
      (addMonthsSafe ⟨y, m, d⟩ k).year = y + ((m - 1) + k) / 12 ∧
      (addMonthsSafe ⟨y, m, d⟩ k).month = ((m - 1) + k) % 12 + 1 ∧
      (addMonthsSafe ⟨y, m, d⟩ k).day =
        min d (daysInMonth (y + ((m - 1) + k) / 12) (((m - 1) + k) % 12 + 1))) ∧
    (∀ y m d,
      generateCommemorationDates y (some m) (some d) =
        [ ⟨"DEATH_40_DAYS", toISODate (addDays ⟨y, m, d⟩ 40)⟩,
          ⟨"DEATH_6_MONTHS", toISODate (addMonthsSafe ⟨y, m, d⟩ 6)⟩,
          ⟨"DEATH_1_YEAR", toISODate (addMonthsSafe ⟨y, m, d⟩ 12)⟩,
          ⟨"DEATH_ANNIVERSARY", toISODate (addMonthsSafe ⟨y, m, d⟩ 12)⟩ ]) := by
  refine ⟨by decide, fun y m d k => ?_, fun y m d => rfl⟩
  unfold addMonthsSafe
  simp only
  split_ifs with h
  · exact ⟨rfl, rfl, (Nat.min_eq_left h).symm⟩
  · exact ⟨rfl, rfl, (Nat.min_eq_right (Nat.le_of_not_le h)).symm⟩

/-- C8: partial death dates never generate commemorations — with the death
month or day absent the deriver returns the empty list, and finalizing such
a record inserts zero commemoration rows while still flipping the relative
to DECEASED. -/
theorem C8_partial_dates_no_commemorations
    (s : DBState) (record : DeathRecord) (now : Nat)
    (hpart : record.deathMonth = none ∨ record.deathDay = none)
    (hhit : (s.deathRecords.find? (fun dr =>
      decide (dr.id = record.id ∧ dr.status = .PENDING))).isSome) :
    generateCommemorationDates record.deathYear record.deathMonth record.deathDay
        = [] ∧
    (finalizeDeathRecord s record now .noFail).1.commemorations
        = s.commemorations ∧
    ∀ r ∈ s.relatives, r.id = record.relativeId →
      { r with status := .DECEASED
               deathYear := some record.deathYear
               deathMonth := record.deathMonth
               deathDay := record.deathDay } ∈
        (finalizeDeathRecord s record now .noFail).1.relatives := by
  have hgen : generateCommemorationDates record.deathYear record.deathMonth
      record.deathDay = [] := by
    rcases hm : record.deathMonth with _ | m <;> rcases hd : record.deathDay with _ | d <;>
      simp_all [generateCommemorationDates]
  obtain ⟨hit, hfind⟩ := Option.isSome_iff_exists.mp hhit
  have heff := finalize_hit s record hit now .noFail hfind rfl
  refine ⟨hgen, ?_, ?_⟩
  · rw [heff.1]
    simp [finalizeCommRows, hgen]
  · intro r hr hid
    rw [heff.1]
    exact List.mem_map.mpr ⟨r, hr, by simp [markDeceased, hid]⟩

/-- Witness for C8 at the concrete fixture: the zero-quorum record with a
year-only death date inserts no commemoration row and still marks relative 5
deceased. -/
theorem C8_partial_dates_no_commemorations_witness :
    generateCommemorationDates 2024 none none = [] ∧
    (finalizeDeathRecord wStatePartial wRecordPartial 0 .noFail).1.commemorations
        = wStatePartial.commemorations ∧
    { wRelative with status := .DECEASED
                     deathYear := some 2024
                     deathMonth := (none : Option Nat)
                     deathDay := (none : Option Nat) } ∈
      (finalizeDeathRecord wStatePartial wRecordPartial 0 .noFail).1.relatives := by
  obtain ⟨h1, h2, h3⟩ := C8_partial_dates_no_commemorations wStatePartial wRecordPartial 0
    (Or.inl rfl) (by decide)
  exact ⟨h1, h2, h3 wRelative (by decide) rfl⟩

/-- C1: finalize is idempotent.  Starting from a store whose record ids are
unique and that holds the PENDING record, the first call makes exactly one
CONFIRMED transition, one relative flip and one commemoration batch, and a
second call finds the record no longer PENDING, performs no write at all
(the store is returned unchanged) and succeeds with the record it was
passed. -/
theorem C1_finalize_idempotent (s : DBState) (record : DeathRecord) (now now2 : Nat)
    (hNodup : (s.deathRecords.map (fun dr => dr.id)).Nodup)
    (hmem : record ∈ s.deathRecords) (hpend : record.status = .PENDING) :
    (finalizeDeathRecord s record now .noFail).1.deathRecords =
        s.deathRecords.map (casConfirm record.id now) ∧
    (finalizeDeathRecord s record now .noFail).1.relatives =
        s.relatives.map (markDeceased record) ∧
    (finalizeDeathRecord s record now .noFail).1.commemorations =
        s.commemorations ++ finalizeCommRows record ∧
    (finalizeDeathRecord s record now .noFail).2 =
        .ok { record with status := .CONFIRMED, confirmedAt := some now } ∧
    finalizeDeathRecord (finalizeDeathRecord s record now .noFail).1 record now2 .noFail
        = ((finalizeDeathRecord s record now .noFail).1, .ok record) := by
  obtain ⟨hit, hfind⟩ : ∃ hit, s.deathRecords.find? (fun dr =>
      decide (dr.id = record.id ∧ dr.status = .PENDING)) = some hit :=
    Option.isSome_iff_exists.mp (List.find?_isSome.mpr
      ⟨record, hmem, by simp [hpend]⟩)
  have hhitmem := List.mem_of_find?_eq_some hfind
  have hpred := List.find?_some hfind
  simp only [decide_eq_true_eq] at hpred
  have hhit : hit = record := List.inj_on_of_nodup_map hNodup hhitmem hmem hpred.1
  rw [hhit] at hfind
  have heff := finalize_hit s record record now .noFail hfind rfl
  have hrows : (finalizeDeathRecord s record now .noFail).1.deathRecords =
      s.deathRecords.map (casConfirm record.id now) := by rw [heff.1]
  have hnone : (finalizeDeathRecord s record now .noFail).1.deathRecords.find?
      (fun dr => decide (dr.id = record.id ∧ dr.status = .PENDING)) = none := by
    rw [hrows]
    apply List.find?_eq_none.mpr
    intro dr hdr
    simp only [decide_eq_true_eq]
    obtain ⟨dr0, hdr0, hcas⟩ := List.mem_map.mp hdr
    by_cases hid : dr0.id = record.id
    · have heq : dr0 = record := List.inj_on_of_nodup_map hNodup hdr0 hmem hid
      rw [heq] at hcas
      rintro ⟨_, hst⟩
      rw [← hcas] at hst
      simp [casConfirm, hpend] at hst
    · rw [casConfirm_of_ne _ _ _ (Or.inl hid)] at hcas
      rw [← hcas]
      rintro ⟨h1, _⟩
      exact hid h1
  exact ⟨hrows, by rw [heff.1], by rw [heff.1], heff.2,
    finalize_miss _ record now2 .noFail hnone⟩

/-- Witness for C1 at the concrete fixture state. -/
theorem C1_finalize_idempotent_witness :
    (finalizeDeathRecord wState wRecord 7 .noFail).1.deathRecords =
        wState.deathRecords.map (casConfirm wRecord.id 7) ∧
    (finalizeDeathRecord wState wRecord 7 .noFail).1.relatives =
        wState.relatives.map (markDeceased wRecord) ∧
    (finalizeDeathRecord wState wRecord 7 .noFail).1.commemorations =
        wState.commemorations ++ finalizeCommRows wRecord ∧
    (finalizeDeathRecord wState wRecord 7 .noFail).2 =
        .ok { wRecord with status := .CONFIRMED, confirmedAt := some 7 } ∧
    finalizeDeathRecord (finalizeDeathRecord wState wRecord 7 .noFail).1 wRecord 9 .noFail
        = ((finalizeDeathRecord wState wRecord 7 .noFail).1, .ok wRecord) :=
  C1_finalize_idempotent wState wRecord 7 9 (by decide) (by decide) (by decide)

/-- C2: finalize is atomic.  When the CAS would hit and the relative update
or the commemoration insert fails, the transaction rolls the store back to
exactly its pre-call value and surfaces the database error; moreover, for
any failure combination the post-state is all-or-nothing — either the
pre-call store or the fully finalized store. -/
theorem C2_finalize_atomic (s : DBState) (record : DeathRecord) (now : Nat)
    (oracle : FailureOracle)
    (hcas : (s.deathRecords.find? (fun dr =>
      decide (dr.id = record.id ∧ dr.status = .PENDING))).isSome)
    (hfail : oracle.failRelativeUpdate = true ∨ oracle.failCommInsert = true) :
    ((finalizeDeathRecord s record now oracle).1 = s ∧
      ∃ e, (finalizeDeathRecord s record now oracle).2 = .error (.dbError e)) ∧
    ∀ oracle' : FailureOracle,
      (finalizeDeathRecord s record now oracle').1 = s ∨
      (finalizeDeathRecord s record now oracle').1 =
        { s with deathRecords := s.deathRecords.map (casConfirm record.id now)
                 relatives := s.relatives.map (markDeceased record)
                 commemorations := s.commemorations ++ finalizeCommRows record } := by
  obtain ⟨hit, hfind⟩ := Option.isSome_iff_exists.mp hcas
  constructor
  · exact finalize_fail s record hit now oracle hfind
      (by rcases hfail with h | h <;> simp [FailureOracle.fails, h])
  · intro oracle'
    rcases hf : oracle'.fails with _ | _
    · exact Or.inr (finalize_hit s record hit now oracle' hfind hf).1
    · exact Or.inl (finalize_fail s record hit now oracle' hfind hf).1

/-- Witness for C2: a failing commemoration insert at the fixture state
rolls everything back. -/
theorem C2_finalize_atomic_witness :
    ((finalizeDeathRecord wState wRecord 7 ⟨false, true⟩).1 = wState ∧
      ∃ e, (finalizeDeathRecord wState wRecord 7 ⟨false, true⟩).2 =
        .error (.dbError e)) ∧
    ∀ oracle' : FailureOracle,
      (finalizeDeathRecord wState wRecord 7 oracle').1 = wState ∨
      (finalizeDeathRecord wState wRecord 7 oracle').1 =
        { wState with
            deathRecords := wState.deathRecords.map (casConfirm wRecord.id 7)
            relatives := wState.relatives.map (markDeceased wRecord)
            commemorations := wState.commemorations ++ finalizeCommRows wRecord } :=
  C2_finalize_atomic wState wRecord 7 ⟨false, true⟩ (by decide) (Or.inr rfl)

/-- C5 counterexample: in the fixture tree, reporter 10 (the tree owner, so
tree role is not the obstacle) confirming their own PENDING record 100 is
rejected with a BadRequest-classified error, not a Forbidden one, and
nothing is written. -/
theorem C5_counterexample :
    (confirmDeath wState 100 10 true 0).2 =
      .error (.badRequest "Cannot confirm your own death report") ∧
    errorIsForbidden (confirmDeath wState 100 10 true 0).2 = false ∧
    (confirmDeath wState 100 10 true 0).1 = wState := by decide

/-- C5 (amended): a confirm/dispute call by the record's original reporter
always fails, whatever the caller's tree role, and leaves the store
untouched; when the record is PENDING and the caller has tree access the
error is classified BadRequest (the source throws `badRequest`, not
`forbidden`). -/
theorem C5_self_confirmation_blocked (s : DBState)
    (recordId userId now : Nat) (confirmed : Bool) (record : DeathRecord)
    (hfound : s.deathRecords.find? (fun dr => decide (dr.id = recordId))
      = some record)
    (hself : record.reportedBy = userId) :
    isError (confirmDeath s recordId userId confirmed now).2 = true ∧
    (confirmDeath s recordId userId confirmed now).1 = s ∧
    ∀ relative role,
      s.relatives.find? (fun r => decide (r.id = record.relativeId))
        = some relative →
      verifyTreeAccess s relative.treeId userId .viewer = .ok role →
      record.status = .PENDING →
      (confirmDeath s recordId userId confirmed now).2 =
        .error (.badRequest "Cannot confirm your own death report") := by
  simp only [confirmDeath, hfound]
  rcases hrel : s.relatives.find? (fun r => decide (r.id = record.relativeId))
    with _ | relative
  · simp only [hrel]
    exact ⟨by trivial, by trivial, fun relative' role' hrel' _ _ => nomatch hrel'⟩
  · rcases hacc : verifyTreeAccess s relative.treeId userId .viewer with e | role
    · simp only [hrel, hacc]
      refine ⟨by trivial, by trivial, fun relative' role' hrel' hacc' _ => ?_⟩
      obtain rfl : relative = relative' := by injection hrel'
      rw [hacc] at hacc'
      cases hacc'
    · by_cases hst : record.status = .PENDING
      · simp only [hrel, hacc,
          if_neg (show ¬(record.status ≠ DRStatus.PENDING) by simp [hst]),
          if_pos hself]
        exact ⟨by trivial, by trivial, fun _ _ _ _ _ => by trivial⟩
      · simp only [hrel, hacc, if_pos hst]
        exact ⟨by trivial, by trivial, fun _ _ _ _ hst' => absurd hst' hst⟩

/-- Witness for the amended C5 at the fixture state: the self-confirmation
attempt by reporter 10 on PENDING record 100 fails with BadRequest. -/
theorem C5_self_confirmation_blocked_witness :
    isError (confirmDeath wState 100 10 true 0).2 = true ∧
    (confirmDeath wState 100 10 true 0).1 = wState ∧
    (confirmDeath wState 100 10 true 0).2 =
      .error (.badRequest "Cannot confirm your own death report") := by
  obtain ⟨h1, h2, h3⟩ :=
    C5_self_confirmation_blocked wState 100 10 0 true wRecord (by decide) rfl
  exact ⟨h1, h2, h3 wRelative .owner (by decide) (by decide) rfl⟩

/-- C4: a single dispute short-circuits the process.  Whatever
`confirmationsNeeded` is, one `confirmed = false` call on a PENDING record
transitions it to DISPUTED; once a record is DISPUTED or CONFIRMED every
further confirm/dispute call fails without writing, and neither confirm nor
finalize ever moves a row out of DISPUTED or CONFIRMED. -/
theorem C4_dispute_short_circuits (s : DBState) (now : Nat)
    (hNodup : (s.deathRecords.map (fun dr => dr.id)).Nodup) :
    (∀ recordId userId record relative role,
      s.deathRecords.find? (fun dr => decide (dr.id = recordId)) = some record →
      s.relatives.find? (fun r => decide (r.id = record.relativeId))
        = some relative →
      verifyTreeAccess s relative.treeId userId .viewer = .ok role →
      record.status = .PENDING → record.reportedBy ≠ userId →
      s.deathConfirmations.find? (fun c0 =>
        decide (c0.deathRecordId = recordId ∧ c0.userId = userId)) = none →
      (∃ b, (confirmDeath s recordId userId false now).2 =
        .ok (sanitizeDeathRecord { record with status := .DISPUTED } b)) ∧
      ∀ dr ∈ (confirmDeath s recordId userId false now).1.deathRecords,
        dr.id = recordId → dr.status = .DISPUTED) ∧
    (∀ recordId userId c record,
      s.deathRecords.find? (fun dr => decide (dr.id = recordId)) = some record →
      record.status = .DISPUTED ∨ record.status = .CONFIRMED →
      isError (confirmDeath s recordId userId c now).2 = true ∧
      (confirmDeath s recordId userId c now).1 = s) ∧
    (∀ recordId userId c dr, dr ∈ s.deathRecords →
      dr.status = .DISPUTED ∨ dr.status = .CONFIRMED →
      dr ∈ (confirmDeath s recordId userId c now).1.deathRecords) ∧
    (∀ record0 oracle dr, dr ∈ s.deathRecords → dr.status ≠ .PENDING →
      dr ∈ (finalizeDeathRecord s record0 now oracle).1.deathRecords) := by
  refine ⟨?_, ?_, ?_, ?_⟩
  · -- (a) dispute flips a PENDING record to DISPUTED
    intro recordId userId record relative role hfound hrel hacc hpend hne hconf
    have hid : record.id = recordId := by simpa using List.find?_some hfound
    simp only [confirmDeath, hfound, hrel, hacc,
      if_neg (show ¬(record.status ≠ DRStatus.PENDING) by simp [hpend]),
      if_neg hne, hconf, Option.isSome_none, Bool.false_eq_true, if_false,
      Bool.not_false, if_true]
    rw [find?_id_of_map _
      (fun dr => by by_cases h : dr.id = recordId <;> simp [h])
      s.deathRecords recordId, hfound, Option.map_some', if_pos hid]
    constructor
    · exact ⟨_, rfl⟩
    · intro dr hdr hdrid
      obtain ⟨dr0, _, hcas⟩ := List.mem_map.mp hdr
      by_cases h0 : dr0.id = recordId
      · rw [if_pos h0] at hcas
        rw [← hcas]
      · rw [if_neg h0] at hcas
        rw [← hcas] at hdrid
        exact absurd hdrid h0
  · -- (b) a DISPUTED or CONFIRMED record rejects every further response
    intro recordId userId c record hfound hst
    have hstne : record.status ≠ .PENDING := by
      rcases hst with h | h <;> simp [h]
    simp only [confirmDeath, hfound]
    rcases hrel : s.relatives.find? (fun r => decide (r.id = record.relativeId))
      with _ | relative
    · simp only [hrel]; exact ⟨by trivial, by trivial⟩
    · rcases hacc : verifyTreeAccess s relative.treeId userId .viewer with e | role
      · simp only [hrel, hacc]; exact ⟨by trivial, by trivial⟩
      · simp only [hrel, hacc, if_pos hstne]; exact ⟨by trivial, by trivial⟩
  · -- (c) confirmDeath keeps every DISPUTED / CONFIRMED row in place
    intro recordId userId c dr hdr hst
    have hstne : dr.status ≠ .PENDING := by rcases hst with h | h <;> simp [h]
    simp only [confirmDeath]
    rcases hfound : s.deathRecords.find? (fun dr0 => decide (dr0.id = recordId))
      with _ | record
    · simp only [hfound]; exact hdr
    · have hrid : record.id = recordId := by simpa using List.find?_some hfound
      have hrmem := List.mem_of_find?_eq_some hfound
      simp only [hfound]
      rcases hrel : s.relatives.find? (fun r => decide (r.id = record.relativeId))
        with _ | relative
      · try simp only [hrel]
        exact hdr
      · try simp only [hrel]
        rcases hacc : verifyTreeAccess s relative.treeId userId .viewer with e | role
        · try simp only [hacc]
          exact hdr
        · try simp only [hacc]
          by_cases hpend : record.status = .PENDING
          · rw [if_neg (show ¬(record.status ≠ DRStatus.PENDING) by simp [hpend])]
            by_cases hself : record.reportedBy = userId
            · rw [if_pos hself]; exact hdr
            · rw [if_neg hself]
              by_cases hdup : (s.deathConfirmations.find? (fun c0 =>
                  decide (c0.deathRecordId = recordId ∧ c0.userId = userId))).isSome
              · rw [if_pos hdup]; exact hdr
              · rw [if_neg hdup]
                have hdne : dr.id ≠ recordId := by
                  intro hcontra
                  have : dr = record := List.inj_on_of_nodup_map hNodup hdr hrmem
                    (by rw [hcontra, hrid])
                  rw [this] at hstne
                  exact hstne hpend
                by_cases hc : c = true
                · -- confirm path
                  rw [hc, if_neg (show ¬¬(true = true) by simp)]
                  by_cases hcnt : (List.filter (fun c0 =>
                      decide (c0.deathRecordId = recordId ∧ c0.confirmed = true))
                      (s.deathConfirmations ++ [⟨recordId, userId, true⟩])).length ≥
                      record.confirmationsNeeded
                  · rw [if_pos hcnt]
                    have hkeep := finalize_preserves_other_rows
                      { s with deathConfirmations :=
                          s.deathConfirmations ++ [⟨recordId, userId, true⟩] }
                      record now .noFail dr hdr (Or.inr hstne)
                    rcases hfin : finalizeDeathRecord
                        { s with deathConfirmations :=
                            s.deathConfirmations ++ [⟨recordId, userId, true⟩] }
                        record now .noFail with ⟨s2, r2⟩
                    rw [hfin] at hkeep
                    rcases r2 with e | updated <;> simpa using hkeep
                  · rw [if_neg hcnt]; exact hdr
                · -- dispute path
                  have hc' : c = false := Bool.eq_false_iff.mpr hc
                  rw [hc', if_pos (show ¬(false = true) by simp)]
                  rcases hupd : (s.deathRecords.map (fun dr0 =>
                      if dr0.id = recordId then { dr0 with status := DRStatus.DISPUTED }
                      else dr0)).find? (fun dr0 => decide (dr0.id = recordId))
                    with _ | updated <;>
                  · simp only [hupd]
                    have : (if dr.id = recordId then
                        { dr with status := DRStatus.DISPUTED } else dr) = dr :=
                      if_neg hdne
                    exact List.mem_map.mpr ⟨dr, hdr, this⟩
          · rw [if_pos hpend]; exact hdr
  · -- (d) finalize keeps every non-PENDING row in place
    intro record0 oracle dr hdr hstne
    exact finalize_preserves_other_rows s record0 now oracle dr hdr (Or.inr hstne)

/-- Witness for C4 at the fixture state: editor 20 disputes record 100. -/
theorem C4_dispute_short_circuits_witness :
    ((∃ b, (confirmDeath wState 100 20 false 3).2 =
        .ok (sanitizeDeathRecord { wRecord with status := .DISPUTED } b)) ∧
      ∀ dr ∈ (confirmDeath wState 100 20 false 3).1.deathRecords,
        dr.id = 100 → dr.status = .DISPUTED) ∧
    (isError (confirmDeath wStateDisputed 100 30 true 3).2 = true ∧
      (confirmDeath wStateDisputed 100 30 true 3).1 = wStateDisputed) := by
  constructor
  · exact (C4_dispute_short_circuits wState 3 (by decide)).1 100 20 wRecord
      wRelative .editor (by decide) (by decide) (by decide) (by decide)
      (by decide) (by decide)
  · exact (C4_dispute_short_circuits wStateDisputed 3 (by decide)).2.1 100 30 true
      { wRecord with status := .DISPUTED } (by decide) (Or.inl rfl)

/-- C3: at most one PENDING record per relative.  With the relative present,
editor access granted and the relative not yet DECEASED: an existing PENDING
record forces a Conflict; when no PENDING record remains (it was finalized
or disputed) a new report succeeds and inserts a fresh PENDING record; and a
successful report preserves the at-most-one-PENDING invariant. -/
theorem C3_at_most_one_pending (s : DBState) (data : ReportData)
    (userId now newId : Nat) (relative : Relative)
    (hrel : s.relatives.find? (fun r => decide (r.id = data.relativeId))
      = some relative)
    (hacc : ∃ role, verifyTreeAccess s relative.treeId userId .editor = .ok role)
    (hnotdec : relative.status ≠ .DECEASED) :
    ((∃ dr ∈ s.deathRecords, dr.relativeId = data.relativeId ∧
        dr.status = .PENDING) →
      reportDeath s data userId now newId =
        .error (.conflict "A pending death record already exists for this relative")) ∧
    ((∀ dr ∈ s.deathRecords, dr.relativeId = data.relativeId →
        dr.status ≠ .PENDING) →
      ∃ s' rec, reportDeath s data userId now newId = .ok (s', rec) ∧
        rec.status = .PENDING ∧ rec.relativeId = data.relativeId) ∧
    (atMostOnePending s →
      ∀ s' rec, reportDeath s data userId now newId = .ok (s', rec) →
      atMostOnePending s') := by
  obtain ⟨role, hacc⟩ := hacc
  refine ⟨?_, ?_, ?_⟩
  · rintro ⟨dr, hdr, h1, h2⟩
    have hsome : (s.deathRecords.find? (fun dr0 =>
        decide (dr0.relativeId = data.relativeId ∧ dr0.status = .PENDING))).isSome :=
      List.find?_isSome.mpr ⟨dr, hdr, by simp [h1, h2]⟩
    simp only [reportDeath, hrel, hacc, if_neg hnotdec, if_pos hsome]
  · intro hnone
    have hn : s.deathRecords.find? (fun dr0 =>
        decide (dr0.relativeId = data.relativeId ∧ dr0.status = .PENDING)) = none :=
      List.find?_eq_none.mpr (fun dr hdr => by
        simp only [decide_eq_true_eq]
        rintro ⟨h1, h2⟩
        exact hnone dr hdr h1 h2)
    simp only [reportDeath, hrel, hacc, if_neg hnotdec, hn, Option.isSome_none,
      Bool.false_eq_true, if_false]
    exact ⟨_, _, rfl, rfl, rfl⟩
  · intro hinv s' rec hok
    rcases hn : s.deathRecords.find? (fun dr0 =>
        decide (dr0.relativeId = data.relativeId ∧ dr0.status = .PENDING))
      with _ | dr0
    · simp only [reportDeath, hrel, hacc, if_neg hnotdec, hn, Option.isSome_none,
        Bool.false_eq_true, if_false] at hok
      have hpair := Except.ok.inj hok
      obtain ⟨h1, -⟩ := Prod.mk.inj hpair
      rw [← h1]
      intro relId
      have hfil : List.filter (fun dr0 =>
          decide (dr0.relativeId = data.relativeId ∧ dr0.status = DRStatus.PENDING))
          s.deathRecords = [] := by
        refine List.filter_eq_nil_iff.mpr (fun dr hdr => ?_)
        simp only [decide_eq_true_eq]
        rintro ⟨g1, g2⟩
        exact absurd (by simp [g1, g2] :
          (fun dr0 => decide (dr0.relativeId = data.relativeId ∧
            dr0.status = DRStatus.PENDING)) dr = true)
          (by simpa using List.find?_eq_none.mp hn dr hdr)
      by_cases hrid : relId = data.relativeId
      · rw [hrid]
        simp only [pendingFor, List.filter_append]
        rw [hfil]
        simp
      · simp only [pendingFor, List.filter_append, List.filter_cons,
          List.filter_nil, decide_eq_true_eq]
        rw [if_neg (by rintro ⟨g1, _⟩; exact hrid g1.symm)]
        simp only [List.append_nil]
        exact hinv relId
    · simp only [reportDeath, hrel, hacc, if_neg hnotdec, hn, Option.isSome_some,
        if_true] at hok
      cases hok

/-- Witness for C3: reporting on relative 5 conflicts while record 100 is
PENDING, and succeeds once that record is DISPUTED. -/
theorem C3_at_most_one_pending_witness :
    reportDeath wState ⟨5, 2025, some 2, some 3, none⟩ 20 0 999 =
      .error (.conflict "A pending death record already exists for this relative") ∧
    ∃ s' rec, reportDeath wStateDisputed ⟨5, 2025, some 2, some 3, none⟩ 20 0 999 =
      .ok (s', rec) ∧ rec.status = .PENDING ∧ rec.relativeId = 5 := by
  constructor
  · exact (C3_at_most_one_pending wState ⟨5, 2025, some 2, some 3, none⟩ 20 0 999
      wRelative (by decide) ⟨.editor, by decide⟩ (by decide)).1
      ⟨wRecord, by decide, rfl, rfl⟩
  · exact (C3_at_most_one_pending wStateDisputed ⟨5, 2025, some 2, some 3, none⟩
      20 0 999 wRelative (by decide) ⟨.editor, by decide⟩ (by decide)).2.1
      (by decide)

/-- C6: the hourly sweep finalizes exactly the overdue zero-quorum records.
Under the creation-time invariant that a non-null `autoConfirmAt` implies
`confirmationsNeeded = 0`, every selected record is PENDING, zero-quorum and
overdue; each such record whose own finalize transaction does not fail ends
the sweep CONFIRMED even though zero confirmations are recorded — no matter
what failures other records hit (isolate-and-continue) — and every record
whose deadline is null or in the future is left untouched. -/
theorem C6_auto_confirm_sweep (s : DBState) (now : Nat)
    (oracle : Nat → FailureOracle)
    (hNodup : (s.deathRecords.map (fun dr => dr.id)).Nodup)
    (hInv : ∀ dr ∈ s.deathRecords, dr.autoConfirmAt.isSome →
      dr.confirmationsNeeded = 0) :
    (∀ dr ∈ s.deathRecords.filter (overduePending now),
      dr.confirmationsNeeded = 0 ∧ dr.status = .PENDING ∧
        ∃ t, dr.autoConfirmAt = some t ∧ t ≤ now) ∧
    (∀ dr ∈ s.deathRecords, dr.status = .PENDING → dr.confirmationsNeeded = 0 →
      (∃ t, dr.autoConfirmAt = some t ∧ t ≤ now) → (oracle dr.id).fails = false →
      { dr with status := .CONFIRMED, confirmedAt := some now } ∈
        (autoConfirmDeathRecords s now oracle).1.deathRecords) ∧
    (∀ dr ∈ s.deathRecords,
      (dr.autoConfirmAt = none ∨ ∃ t, dr.autoConfirmAt = some t ∧ now < t) →
      dr ∈ (autoConfirmDeathRecords s now oracle).1.deathRecords) := by
  have hover : ∀ dr : DeathRecord, overduePending now dr = true ↔
      (dr.status = .PENDING ∧ ∃ t, dr.autoConfirmAt = some t ∧ t ≤ now) := by
    intro dr
    unfold overduePending
    rcases h : dr.autoConfirmAt with _ | t <;>
      simp [h, and_comm]
  refine ⟨?_, ?_, ?_⟩
  · intro dr hdr
    obtain ⟨hmem, hsel⟩ := List.mem_filter.mp hdr
    obtain ⟨hpend, ht, hsome, hle⟩ := (hover dr).mp hsel
    exact ⟨hInv dr hmem (by simp [hsome]), hpend, ht, hsome, hle⟩
  · intro dr hmem hpend hzero hdue hok
    refine sweepLoop_processed now oracle _ _ dr ?_ hNodup ?_ ?_ hok
    · exact ((show (s.deathRecords.filter (overduePending now)).Sublist
          s.deathRecords from List.filter_sublist _).map
        (fun r0 => r0.id)).nodup hNodup
    · intro r0 hr0
      obtain ⟨hm, hs⟩ := List.mem_filter.mp hr0
      exact ⟨hm, ((hover r0).mp hs).1⟩
    · exact List.mem_filter.mpr ⟨hmem, (hover dr).mpr ⟨hpend, hdue⟩⟩
  · intro dr hmem hfut
    refine sweepLoop_untouched now oracle _ _ dr hmem ?_
    intro r hr hcontra
    obtain ⟨hm, hs⟩ := List.mem_filter.mp hr
    have : r = dr := List.inj_on_of_nodup_map hNodup hm hmem hcontra
    rw [this] at hs
    obtain ⟨-, t, hsome, hle⟩ := (hover dr).mp hs
    rcases hfut with h | ⟨t', hsome', hlt⟩
    · rw [h] at hsome; cases hsome
    · rw [hsome'] at hsome
      injection hsome with h'
      omega

/-- Witness for C6 at t = 100: the overdue zero-quorum record 100 is
finalized by the sweep with zero confirmations recorded, while record 102
(deadline in the future) is untouched. -/
theorem C6_auto_confirm_sweep_witness :
    { wRecordAuto with status := DRStatus.CONFIRMED, confirmedAt := some 100 } ∈
      (autoConfirmDeathRecords wStateAuto 100 (fun _ => .noFail)).1.deathRecords ∧
    wRecordFuture ∈
      (autoConfirmDeathRecords wStateAuto 100 (fun _ => .noFail)).1.deathRecords := by
  obtain ⟨-, h2, h3⟩ := C6_auto_confirm_sweep wStateAuto 100 (fun _ => .noFail)
    (by decide) (by decide)
  exact ⟨h2 wRecordAuto (by decide) rfl rfl ⟨50, rfl, by omega⟩ rfl,
    h3 wRecordFuture (by decide) (Or.inr ⟨1000000, rfl, by omega⟩)⟩

/-- C9: the daily event/notification sweep is idempotent within a day.  One
run's batch contains no duplicate (userId, type, relativeId, eventDate) key
and no key already present for the tree in the window (the seen set starts
from the pre-loaded keys and grows with each queued row), and running the
per-tree body a second time with the same inputs inserts zero new rows. -/
theorem C9_daily_sweep_idempotent (notifs : List Notification) (treeId : Nat)
    (events : List EventT) (members : List Nat) (fromStr toStr : String)
    (hrange : ∀ e ∈ events, dateBetween e.date fromStr toStr = true) :
    (((buildNewNotifications treeId events members
        ((notifs.filter (fun n => decide (n.treeId = treeId) &&
          dateBetween n.eventDate fromStr toStr)).map Notification.key)).map
        Notification.key).Nodup ∧
      ∀ k ∈ (buildNewNotifications treeId events members
        ((notifs.filter (fun n => decide (n.treeId = treeId) &&
          dateBetween n.eventDate fromStr toStr)).map Notification.key)).map
        Notification.key,
        k ∉ (notifs.filter (fun n => decide (n.treeId = treeId) &&
          dateBetween n.eventDate fromStr toStr)).map Notification.key) ∧
    processTree (processTree notifs treeId events members fromStr toStr)
        treeId events members fromStr toStr =
      processTree notifs treeId events members fromStr toStr := by
  obtain ⟨G1, G2, G3, G4⟩ := eventFold_invariant treeId
    ((notifs.filter (fun n => decide (n.treeId = treeId) &&
      dateBetween n.eventDate fromStr toStr)).map Notification.key)
    (fun n => n.treeId = treeId ∧ dateBetween n.eventDate fromStr toStr = true)
    members events
    ((notifs.filter (fun n => decide (n.treeId = treeId) &&
      dateBetween n.eventDate fromStr toStr)).map Notification.key, [])
    (fun e he _ => ⟨rfl, hrange e he⟩)
    (fun k => by simp)
    (by simp)
    (fun n hn => nomatch hn)
    (fun k hk => nomatch hk)
  refine ⟨⟨G2, G4⟩, ?_⟩
  have hQnew : ∀ n ∈ buildNewNotifications treeId events members
      ((notifs.filter (fun n0 => decide (n0.treeId = treeId) &&
        dateBetween n0.eventDate fromStr toStr)).map Notification.key),
      (decide (n.treeId = treeId) && dateBetween n.eventDate fromStr toStr)
        = true := by
    intro n hn
    obtain ⟨hq1, hq2⟩ := G3 n hn
    simp [hq1, hq2]
  have hfilter2 : (notifs ++ buildNewNotifications treeId events members
      ((notifs.filter (fun n => decide (n.treeId = treeId) &&
        dateBetween n.eventDate fromStr toStr)).map Notification.key)).filter
      (fun n => decide (n.treeId = treeId) &&
        dateBetween n.eventDate fromStr toStr) =
      notifs.filter (fun n => decide (n.treeId = treeId) &&
        dateBetween n.eventDate fromStr toStr) ++
      buildNewNotifications treeId events members
        ((notifs.filter (fun n => decide (n.treeId = treeId) &&
          dateBetween n.eventDate fromStr toStr)).map Notification.key) := by
    rw [List.filter_append, List.filter_eq_self.mpr hQnew]
  have hall : ∀ e ∈ events, ∀ m ∈ members,
      notifKey m e.type e.relativeId e.date ∈
        ((notifs ++ buildNewNotifications treeId events members
          ((notifs.filter (fun n => decide (n.treeId = treeId) &&
            dateBetween n.eventDate fromStr toStr)).map Notification.key)).filter
          (fun n => decide (n.treeId = treeId) &&
            dateBetween n.eventDate fromStr toStr)).map Notification.key := by
    intro e he m hm
    have hc := (eventFold_candidate treeId members events
      ((notifs.filter (fun n => decide (n.treeId = treeId) &&
        dateBetween n.eventDate fromStr toStr)).map Notification.key, [])).2
      e he m hm
    have hin := (G1 _).mp hc
    rw [hfilter2, List.map_append]
    exact List.mem_append.mpr hin
  have hskip : buildNewNotifications treeId events members
      (((notifs ++ buildNewNotifications treeId events members
        ((notifs.filter (fun n => decide (n.treeId = treeId) &&
          dateBetween n.eventDate fromStr toStr)).map Notification.key)).filter
        (fun n => decide (n.treeId = treeId) &&
          dateBetween n.eventDate fromStr toStr)).map Notification.key) = [] := by
    unfold buildNewNotifications
    rw [eventFold_skip treeId members events _ hall]
  show (notifs ++ buildNewNotifications treeId events members
      ((notifs.filter (fun n => decide (n.treeId = treeId) &&
        dateBetween n.eventDate fromStr toStr)).map Notification.key)) ++
      buildNewNotifications treeId events members
        (((notifs ++ buildNewNotifications treeId events members
          ((notifs.filter (fun n => decide (n.treeId = treeId) &&
            dateBetween n.eventDate fromStr toStr)).map Notification.key)).filter
          (fun n => decide (n.treeId = treeId) &&
            dateBetween n.eventDate fromStr toStr)).map Notification.key) =
    notifs ++ buildNewNotifications treeId events members
      ((notifs.filter (fun n => decide (n.treeId = treeId) &&
        dateBetween n.eventDate fromStr toStr)).map Notification.key)
  rw [hskip, List.append_nil]

/-- Witness for C9: one birthday event fanned out to members 10 and 20 on an
empty notifications table — distinct batch keys, and a second run of the
per-tree body inserts nothing. -/
theorem C9_daily_sweep_idempotent_witness :
    (((buildNewNotifications 1 [wEvent] [10, 20]
        (([] : List Notification).filter (fun n => decide (n.treeId = 1) &&
          dateBetween n.eventDate "2026-10-11" "2026-10-18")|>.map
          Notification.key)).map Notification.key).Nodup ∧
      ∀ k ∈ (buildNewNotifications 1 [wEvent] [10, 20]
        (([] : List Notification).filter (fun n => decide (n.treeId = 1) &&
          dateBetween n.eventDate "2026-10-11" "2026-10-18")|>.map
          Notification.key)).map Notification.key,
        k ∉ (([] : List Notification).filter (fun n => decide (n.treeId = 1) &&
          dateBetween n.eventDate "2026-10-11" "2026-10-18")|>.map
          Notification.key)) ∧
    processTree (processTree [] 1 [wEvent] [10, 20] "2026-10-11" "2026-10-18")
        1 [wEvent] [10, 20] "2026-10-11" "2026-10-18" =
      processTree [] 1 [wEvent] [10, 20] "2026-10-11" "2026-10-18" :=
  C9_daily_sweep_idempotent [] 1 [wEvent] [10, 20] "2026-10-11" "2026-10-18"
    (by intro e he; rw [List.mem_singleton.mp he]; decide)

/-- C10: the event projection generates BIRTHDAY and NAME_DAY events only
for relatives whose status is ALIVE or UNKNOWN; a relative whose status is
MISSING or DECEASED never yields such an event, for any date range and any
name-day library output, even when its birth month/day or name matches.
(Commemoration rows are assumed well-typed, i.e. their `type` is one of the
four DEATH_* enum values the schema and finalize produce, so the
`COMM_TYPE_MAP` fallback cannot smuggle in a BIRTHDAY type.) -/
theorem C10_living_status_gate (treeRelatives : List Relative)
    (spouseRelationships : List Relationship) (treeComms : List CommRow)
    (rangeDates : List JDate) (nameDayIndex : String → Option NameDayInfo)
    (hNodup : (treeRelatives.map (fun r => r.id)).Nodup)
    (hcomm : ∀ c ∈ treeComms, c.type = "DEATH_40_DAYS" ∨
      c.type = "DEATH_6_MONTHS" ∨ c.type = "DEATH_1_YEAR" ∨
      c.type = "DEATH_ANNIVERSARY") :
    ∀ rel ∈ treeRelatives, rel.status = .MISSING ∨ rel.status = .DECEASED →
      ∀ ev ∈ getTreeEvents treeRelatives spouseRelationships treeComms
        rangeDates nameDayIndex,
        ev.type = "BIRTHDAY" ∨ ev.type = "NAME_DAY" →
        ev.relativeId ≠ some rel.id := by
  intro rel hrelmem hstatus ev hev htype hcontra
  have hnotliving : isLivingStatus rel.status = false := by
    rcases hstatus with h | h <;> simp [isLivingStatus, h]
  have hev' : ev ∈
      computeBirthdays (treeRelatives.filter (fun r => isLivingStatus r.status))
        rangeDates ++
      computeNameDays (treeRelatives.filter (fun r => isLivingStatus r.status))
        rangeDates nameDayIndex ++
      computeCommemorations treeComms treeRelatives ++
      computeAnniversaries spouseRelationships treeRelatives rangeDates ++
      computeOnThisDay (treeRelatives.filter (fun r =>
        decide (r.status = RelStatus.DECEASED))) rangeDates :=
    List.mem_mergeSort.mp hev
  have hliving : ∀ r, r ∈ treeRelatives.filter (fun r0 => isLivingStatus r0.status) →
      ev.relativeId = some r.id → False := by
    intro r hr heq
    obtain ⟨hrmem, hrliv⟩ := List.mem_filter.mp hr
    rw [hcontra] at heq
    have hre : rel = r := List.inj_on_of_nodup_map hNodup hrelmem hrmem
      (Option.some.inj heq)
    rw [← hre, hnotliving] at hrliv
    cases hrliv
  rcases List.mem_append.mp hev' with h | hOn
  · rcases List.mem_append.mp h with h | hAnn
    · rcases List.mem_append.mp h with h | hComm
      · rcases List.mem_append.mp h with hB | hN
        · obtain ⟨r, hr, heq⟩ := computeBirthdays_src _ _ ev hB
          exact hliving r hr heq
        · obtain ⟨r, hr, heq⟩ := computeNameDays_src _ _ _ ev hN
          exact hliving r hr heq
      · obtain ⟨c, hc, heq⟩ := computeCommemorations_types _ _ ev hComm
        rcases hcomm c hc with h | h | h | h <;> rw [h] at heq <;>
          rcases htype with ht | ht <;> rw [ht] at heq <;>
          exact absurd heq (by decide)
    · have hty := computeAnniversaries_types _ _ _ ev hAnn
      rcases htype with ht | ht <;> rw [ht] at hty <;> exact absurd hty (by decide)
  · have hty := computeOnThisDay_types _ _ ev hOn
    rcases htype with ht | ht <;> rw [ht] at hty <;> exact absurd hty (by decide)

/-- Witness for C10: relative 7 is DECEASED with birth month/day matching
the visited date, yet the projection yields no BIRTHDAY or NAME_DAY event
for them. -/
theorem C10_living_status_gate_witness :
    ¬ ∃ ev ∈ getTreeEvents [wRelativeDeceased] [] [] [⟨2026, 3, 14⟩]
        (fun _ => none),
      (ev.type = "BIRTHDAY" ∨ ev.type = "NAME_DAY") ∧
        ev.relativeId = some 7 := by
  rintro ⟨ev, hev, htype, hid⟩
  exact C10_living_status_gate [wRelativeDeceased] [] [] [⟨2026, 3, 14⟩]
    (fun _ => none) (by decide) (fun c hc => nomatch hc) wRelativeDeceased
    (by decide) (Or.inr rfl) ev hev htype hid

end Kintales
